import Mathlib

set_option maxRecDepth 10000

namespace GSM

/-!
Shallow embedding of the GSMArena incremental scraper (the incremental-logic
portion of the repository).  Pure helpers (block detection, id extraction,
year extraction, category detection, listing-URL matching, spec building) are
translated directly from the source; the stateful pipeline (budget counter,
ledger, pagination, item loop, orchestrator) is embedded as explicit state
passing with an event trace.  External collaborators (HTTP transport, cheerio
DOM selection, the clock, the filesystem write outcome) are modelled as
oracle functions bundled in `Extern`.
-/

/-- JSON-ish scalar values stored in persisted ledger entries. -/
inductive JVal
  | s (v : String)
  | n (v : Nat)
deriving DecidableEq, Repr

/-- A persisted ledger entry: an ordered list of field-name/value pairs,
mirroring a JS object literal. -/
abbrev EntryObj := List (String × JVal)

/-- The in-memory `seenProducts` mapping: id to entry, as an ordered
association list with JS-object update semantics. -/
abbrev Ledger := List (String × EntryObj)

/-- Association-list lookup (first match), modelling JS property read. -/
def lookupA {α : Type} : List (String × α) → String → Option α
  | [], _ => none
  | (k0, v0) :: t, k => if k0 = k then some v0 else lookupA t k

/-- Association-list update, modelling JS property assignment: an existing
key keeps its position, a new key is appended. -/
def setA {α : Type} : List (String × α) → String → α → List (String × α)
  | [], k, v => [(k, v)]
  | (k0, v0) :: t, k, v => if k0 = k then (k0, v) :: t else (k0, v0) :: setA t k v

/-- Case-sensitive list prefix test. -/
def pfxOf : List Char → List Char → Bool
  | [], _ => true
  | _ :: _, [] => false
  | a :: ns, b :: hs => (a == b) && pfxOf ns hs

/-- Case-insensitive list prefix test (ASCII lowering, as JS regex /i). -/
def pfxOfCI : List Char → List Char → Bool
  | [], _ => true
  | _ :: _, [] => false
  | a :: ns, b :: hs => (a.toLower == b.toLower) && pfxOfCI ns hs

/-- Contiguous-segment search over char lists, modelling JS
`String.prototype.includes`. -/
def segIn (needle : List Char) : List Char → Bool
  | [] => needle.isEmpty
  | c :: t => pfxOf needle (c :: t) || segIn needle t

/-- String containment, modelling `hay.includes(needle)`. -/
def containsSub (hay needle : String) : Bool :=
  segIn needle.toList hay.toList

/-- ASCII lowering of a string, modelling `s.toLowerCase()`. -/
def lowerStr (s : String) : String :=
  String.mk (s.toList.map Char.toLower)

/-- Whitespace trimming at both ends, modelling `s.trim()`. -/
def trimStr (s : String) : String :=
  String.mk
    (((s.toList.dropWhile Char.isWhitespace).reverse.dropWhile
      Char.isWhitespace).reverse)

/-- Case-sensitive suffix test, modelling `s.endsWith(suf)`. -/
def endsWithStr (s suf : String) : Bool :=
  pfxOf suf.toList.reverse s.toList.reverse

/-- The site base URL constant `BASE`. -/
def BASE : String := "https://www.gsmarena.com"

/-- The block-indicator phrases `BLOCK_KEYWORDS`. -/
def BLOCK_KEYWORDS : List String :=
  ["captcha", "access denied", "unusual traffic", "blocked", "forbidden",
   "rate limit", "too many requests"]

/-- Block detection `isBlocked`: the lowered response body contains some
block keyword. -/
def isBlocked (html : String) : Bool :=
  BLOCK_KEYWORDS.any fun keyword => containsSub (lowerStr html) keyword

/-- The exact message thrown on a blocked response. -/
def blockMsg : String := "BLOCK_DETECTED: Page contains blocking indicators"

/-- Extraction of the trailing numeric product id, modelling the regex
`-(\d+)\.php$` in `extractProductId`. -/
def extractProductId (url : String) : Option String :=
  let r := url.toList.reverse
  if pfxOf "php.".toList r then
    let rest := r.drop 4
    let ds := rest.takeWhile Char.isDigit
    if ds.isEmpty then none
    else
      match rest.drop ds.length with
      | '-' :: _ => some (String.mk ds.reverse)
      | _ => none
  else none

/-- JS regex word character (`\w`). -/
def isWordChar (c : Char) : Bool := c.isAlphanum || c == '_'

/-- Leftmost match of `\b(20\d{2})\b` over a char list, carrying the previous
character for the left word boundary. -/
def findYear (prev : Option Char) : List Char → Option Nat
  | c1 :: c2 :: c3 :: c4 :: rest =>
      if c1 == '2' && c2 == '0' && c3.isDigit && c4.isDigit
          && (match prev with | none => true | some p => !isWordChar p)
          && (match rest with | [] => true | r :: _ => !isWordChar r) then
        some (2000 + 10 * (c3.toNat - 48) + (c4.toNat - 48))
      else
        findYear (some c1) (c2 :: c3 :: c4 :: rest)
  | _ => none

/-- A parsed specs object: section name to key/value rows. -/
abbrev Specs := List (String × List (String × String))

/-- Launch-year extraction `extractLaunchYear`: read `Launch`.`Announced`
and find the first `\b(20\d{2})\b` match; no fallback. -/
def extractLaunchYear (specs : Specs) : Option Nat :=
  let launchSpec := (lookupA specs "Launch").getD []
  let announced := (lookupA launchSpec "Announced").getD ""
  findYear none announced.toList

/-- Section presence-and-nonemptiness test used by `detectCategory`. -/
def secNE (specs : Specs) (k : String) : Bool :=
  match lookupA specs k with
  | some kvs => !kvs.isEmpty
  | none => false

/-- Category detection `detectCategory` from spec sections and name. -/
def detectCategory (specs : Specs) (name : String) : String :=
  let hasDisplay := secNE specs "Display"
  let hasBattery := secNE specs "Battery"
  let hasSIM := secNE specs "SIM"
  let hasSound := secNE specs "Sound"
  let hasBody := secNE specs "Body"
  if hasSound && !hasDisplay && !hasSIM then "earbuds"
  else if hasDisplay && hasBattery && !hasSIM then
    (if containsSub (lowerStr name) "watch" || containsSub (lowerStr name) "smartwatch"
     then "watch" else "tablet")
  else if hasDisplay && hasBattery && hasSIM then "phone"
  else if !hasDisplay && !hasBattery && !hasSIM && !hasSound && hasBody then "accessory"
  else "phone"

/-- Slug character class `[a-z0-9-]` under the `/i` flag. -/
def isSlugChar (c : Char) : Bool := c.isAlpha || c.isDigit || c == '-'

/-- The listing-type alternation `(phones|tablets|watch|earbuds)`. -/
def typeWords : List String := ["phones", "tablets", "watch", "earbuds"]

/-- Attempt to read `type-digits.php` (case-insensitively) at the head of the
char list, returning the matched type word and digit string. -/
def tryTypeTail (cs : List Char) : Option (String × String) :=
  match typeWords.find? (fun w => pfxOfCI w.toList cs) with
  | some w =>
      match cs.drop w.length with
      | '-' :: rest2 =>
          let ds := rest2.takeWhile Char.isDigit
          if ds.isEmpty then none
          else if pfxOfCI ".php".toList (rest2.drop ds.length) then
            some (String.mk (cs.take w.length), String.mk ds)
          else none
      | _ => none
  | none => none

/-- Attempt one slug length for the brand-URL pattern after a slash. -/
def tryAt (cs run : List Char) (len : Nat) : Option (String × String × String) :=
  match cs.drop len with
  | '-' :: rest2 =>
      match tryTypeTail rest2 with
      | some (ty, idd) => some (String.mk (run.take len), ty, idd)
      | none => none
  | _ => none

/-- Greedy backtracking over slug lengths, longest first. -/
def trySlugLens (cs run : List Char) : Nat → Option (String × String × String)
  | 0 => none
  | n + 1 =>
      match tryAt cs run (n + 1) with
      | some r => some r
      | none => trySlugLens cs run n

/-- Attempt the pattern `([a-z0-9-]+)-(type)-(\d+)\.php` right after a slash. -/
def tryAfterSlash (cs : List Char) : Option (String × String × String) :=
  let run := cs.takeWhile isSlugChar
  trySlugLens cs run run.length

/-- Leftmost search for the brand listing-URL pattern. -/
def scanUrl : List Char → Option (String × String × String)
  | [] => none
  | '/' :: rest =>
      match tryAfterSlash rest with
      | some r => some r
      | none => scanUrl rest
  | _ :: rest => scanUrl rest

/-- The brand listing-URL match
`brandUrl.match(/\/([a-z0-9-]+)-(phones|tablets|watch|earbuds)-(\d+)\.php/i)`,
returning the captured slug, type and numeric id. -/
def matchBrandUrl (url : String) : Option (String × String × String) :=
  scanUrl url.toList

/-- A discovered reference: `{url, id}` pair from `parseBrandListing`. -/
structure Ref where
  url : String
  id : String
deriving DecidableEq, Repr

/-- The cheerio projections of a product page used by `parseProductPage`:
the `h1` text, the main photo `src`, and the raw `#specs-list` tables as
(first-`th` text, rows of (`.ttl` text, `.nfo` text)). -/
structure Dom where
  h1 : String
  image : Option String
  tables : List (String × List (String × String))
deriving DecidableEq, Repr

/-- The enriched product record returned by `parseProductPage`. -/
structure Product where
  id : Option String
  name : String
  brand : String
  category : String
  launchYear : Nat
  image : Option String
  url : String
  specs : Specs
  scrapedAt : String
deriving DecidableEq, Repr

/-- The row loop of the specs builder: keys and values are trimmed and kept
only when both are nonempty. -/
def buildRows (rows : List (String × String)) : List (String × String) :=
  rows.foldl
    (fun m kv =>
      let k := trimStr kv.1
      let v := trimStr kv.2
      if k.isEmpty || v.isEmpty then m else setA m k v)
    []

/-- The table loop of the specs builder in `parseProductPage`: sections with
an empty trimmed name are skipped; a repeated section name is reassigned. -/
def buildSpecs (tables : List (String × List (String × String))) : Specs :=
  tables.foldl
    (fun sp t =>
      let sec := trimStr t.1
      if sec.isEmpty then sp else setA sp sec (buildRows t.2))
    []

/-- Listing parser `parseBrandListing`: keep hrefs ending in `.php` whose
full URL yields a product id, producing `{url, id}` references.  The cheerio
selection `.makers li a` is the oracle `select`. -/
def parseBrandListing (select : String → List String) (html : String) : List Ref :=
  (select html).filterMap fun href =>
    if endsWithStr href ".php" then
      let fullUrl := BASE ++ "/" ++ href
      match extractProductId fullUrl with
      | some productId => some ⟨fullUrl, productId⟩
      | none => none
    else none

/-- Product-page parser `parseProductPage`: fails when the trimmed `h1` name
is empty or when no launch year is found; otherwise assembles the record.
`now` stands for `new Date().toISOString()`. -/
def parseProductPage (dom : String → Dom) (html url brand now : String) :
    Except String Product :=
  let d := dom html
  let name := trimStr d.h1
  if name.isEmpty then
    .error "Could not extract product name"
  else
    let specs := buildSpecs d.tables
    match extractLaunchYear specs with
    | none => .error "Could not extract launch year from Launch.Announced"
    | some launchYear =>
        .ok { id := extractProductId url
              name := name
              brand := brand
              category := detectCategory specs name
              launchYear := launchYear
              image := d.image
              url := url
              specs := specs
              scrapedAt := now }

/-- The ledger entry object written by `scrapeProduct`
(`{id, name, scrapedAt}`). -/
def mkSeenEntry (productId name scrapedAt : String) : EntryObj :=
  [("id", .s productId), ("name", .s name), ("scrapedAt", .s scrapedAt)]

/-- The ledger entry object written by the rebuild script
(`{id, name, brand, category, launchYear, scrapedAt}`). -/
def rebuildEntry (p : Product) (pid : String) : EntryObj :=
  [("id", .s pid), ("name", .s p.name), ("brand", .s p.brand),
   ("category", .s p.category), ("launchYear", .n p.launchYear),
   ("scrapedAt", .s p.scrapedAt)]

/-- The rebuild script's accumulation loop over the products of the scraped
JSON files: products with a falsy id are skipped, the rest are keyed by id. -/
def rebuildSeen (files : List (List Product)) : Ledger :=
  files.foldl
    (fun m ps =>
      ps.foldl
        (fun m p =>
          match p.id with
          | none => m
          | some pid => if pid = "" then m else setA m pid (rebuildEntry p pid))
        m)
    []

/-- Outcome of one transport call (`axios.get` through ScraperAPI): a
response body, or a request failure message. -/
inductive FetchOutcome
  | ok (body : String)
  | err (msg : String)

/-- The external collaborators: HTTP transport, cheerio selection/DOM
projection, the clock, and the per-flush filesystem write outcome. -/
structure Extern where
  net : String → FetchOutcome
  select : String → List String
  dom : String → Dom
  clock : Nat → String
  writeOk : Nat → Bool

/-- The scraper configuration constants `MAX_CREDITS` and
`MIN_LAUNCH_YEAR`. -/
structure Config where
  maxCredits : Nat
  minLaunchYear : Nat
deriving DecidableEq, Repr

/-- The source values of the configuration constants. -/
def defaultConfig : Config := { maxCredits := 950, minLaunchYear := 2023 }

/-- The mutable process state: the credit counter `creditsUsed`, the
in-memory `seenProducts` mapping, the persisted `seen_products.json`
content, the flush and clock counters, and `allScrapedProducts`. -/
structure St where
  credits : Nat
  seen : Ledger
  disk : Ledger
  flushes : Nat
  time : Nat
  scraped : List Product
deriving DecidableEq, Repr

/-- Observable events of a run: a charged fetch, a block detection, a ledger
insertion, a sink append, a ledger flush (with the mapping written and the
write outcome), a category header, the item-loop skip/error logs, and the
consecutive-skip abandonment. -/
inductive Ev
  | fetch (url : String)
  | blockHit (url : String)
  | accept (pid : String) (entry : EntryObj)
  | sink (pid : Option String)
  | flush (seen : Ledger) (ok : Bool)
  | catStart (name : String)
  | itemSkip (url : String)
  | itemErr (url : String)
  | abandon (brand : String)
deriving DecidableEq, Repr

/-- Control outcome of a step: normal value, a thrown JS error message, a
`process.exit`, or model fuel exhaustion (never reached with enough fuel). -/
inductive Res (α : Type)
  | ok (a : α)
  | thrown (msg : String)
  | exited (code : Nat)
  | spun
deriving DecidableEq, Repr

/-- One step's outcome together with the updated state and emitted events. -/
structure Out (α : Type) where
  res : Res α
  st : St
  evs : List Ev
deriving DecidableEq, Repr

/-- Prepend already-emitted events to a step outcome. -/
def mapEvs {α : Type} (pre : List Ev) (o : Out α) : Out α :=
  { o with evs := pre ++ o.evs }

/-- The transport wrapper `fetchWithScraperAPI`: charge a credit, halt the
process with exit code 0 when the ceiling is reached, fail on request error,
throw `blockMsg` on a block-indicating body, else return the body. -/
def fetchWithScraperAPI (cfg : Config) (ext : Extern) (st : St) (url : String) :
    Out String :=
  let st1 := { st with credits := st.credits + 1 }
  if cfg.maxCredits ≤ st1.credits then
    { res := .exited 0, st := st1, evs := [.fetch url] }
  else
    match ext.net url with
    | .err m =>
        { res := .thrown ("ScraperAPI request failed: " ++ m), st := st1,
          evs := [.fetch url] }
    | .ok body =>
        if isBlocked body then
          { res := .thrown blockMsg, st := st1, evs := [.fetch url, .blockHit url] }
        else
          { res := .ok body, st := st1, evs := [.fetch url] }

/-- The state flush `saveSeenProducts`: attempt to rewrite the persisted
mapping; a write failure is caught and logged, never thrown. -/
def saveSeenProducts (ext : Extern) (st : St) : Out Unit :=
  let ok := ext.writeOk st.flushes
  { res := .ok ()
    st := { st with
              flushes := st.flushes + 1
              disk := if ok then st.seen else st.disk }
    evs := [.flush st.seen ok] }

/-- The item pipeline `scrapeProduct`: extract the id (throwing when
absent), skip when already seen, fetch, parse, apply the minimum-year
validity filter, and on success record the `{id, name, scrapedAt}` entry in
the in-memory mapping.  Errors raised inside the `try` are caught and turn
into a null result unless they carry the block marker. -/
def scrapeProduct (cfg : Config) (ext : Extern) (st : St)
    (productUrl brand : String) : Out (Option Product) :=
  match extractProductId productUrl with
  | none =>
      { res := .thrown ("Could not extract product ID from URL: " ++ productUrl),
        st := st, evs := [] }
  | some productId =>
      if (lookupA st.seen productId).isSome then
        { res := .ok none, st := st, evs := [] }
      else
        match fetchWithScraperAPI cfg ext st productUrl with
        | ⟨.ok html, st1, evs1⟩ =>
            let now := ext.clock st1.time
            let st2 := { st1 with time := st1.time + 1 }
            match parseProductPage ext.dom html productUrl brand now with
            | .error _ => { res := .ok none, st := st2, evs := evs1 }
            | .ok product =>
                if product.launchYear < cfg.minLaunchYear then
                  { res := .ok none, st := st2, evs := evs1 }
                else
                  let entry := mkSeenEntry productId product.name product.scrapedAt
                  { res := .ok (some product)
                    st := { st2 with seen := setA st2.seen productId entry }
                    evs := evs1 ++ [.accept productId entry] }
        | ⟨.thrown m, st1, evs1⟩ =>
            if containsSub m "BLOCK_DETECTED" then
              { res := .thrown m, st := st1, evs := evs1 }
            else
              { res := .ok none, st := st1, evs := evs1 }
        | ⟨.exited c, st1, evs1⟩ => { res := .exited c, st := st1, evs := evs1 }
        | ⟨.spun, st1, evs1⟩ => { res := .spun, st := st1, evs := evs1 }

/-- The listing URL for a pagination step: the canonical URL on page 1, the
derived `-f-…-0-p<n>` URL on later pages. -/
def pageUrl (slug ty idd : String) (page : Nat) : String :=
  if page = 1 then BASE ++ "/" ++ slug ++ "-" ++ ty ++ "-" ++ idd ++ ".php"
  else BASE ++ "/" ++ slug ++ "-" ++ ty ++ "-f-" ++ idd ++ "-0-p" ++ toString page ++ ".php"

/-- The pagination loop of `getBrandProductLinks`: fetch a page, stop on an
empty listing, partition into unseen references, stop after 3 consecutive
pages without unseen references, rethrow blocks, and stop (returning the
accumulated references) on any other fetch error.  `fuel` bounds the loop in
the model; with fuel above the credit ceiling it never runs out. -/
def paginate (cfg : Config) (ext : Extern) (slug ty idd : String) :
    Nat → Nat → List Ref → Nat → St → Out (List Ref)
  | 0, _, _, _, st => { res := .spun, st := st, evs := [] }
  | fuel + 1, page, acc, consecutiveOldPages, st =>
      match fetchWithScraperAPI cfg ext st (pageUrl slug ty idd page) with
      | ⟨.ok html, st1, evs1⟩ =>
          let links := parseBrandListing ext.select html
          if links.isEmpty then
            { res := .ok acc, st := st1, evs := evs1 }
          else
            let newLinks := links.filter fun link => !(lookupA st1.seen link.id).isSome
            let acc1 := acc ++ newLinks
            if newLinks.isEmpty then
              if consecutiveOldPages + 1 ≥ 3 then
                { res := .ok acc1, st := st1, evs := evs1 }
              else
                mapEvs evs1 (paginate cfg ext slug ty idd fuel (page + 1) acc1
                  (consecutiveOldPages + 1) st1)
            else
              mapEvs evs1 (paginate cfg ext slug ty idd fuel (page + 1) acc1 0 st1)
      | ⟨.thrown m, st1, evs1⟩ =>
          if containsSub m "BLOCK_DETECTED" then
            { res := .thrown m, st := st1, evs := evs1 }
          else
            { res := .ok acc, st := st1, evs := evs1 }
      | ⟨.exited c, st1, evs1⟩ => { res := .exited c, st := st1, evs := evs1 }
      | ⟨.spun, st1, evs1⟩ => { res := .spun, st := st1, evs := evs1 }

/-- Link discovery `getBrandProductLinks`: match the listing URL (throwing
`Invalid brand URL` when it does not match) and run the pagination loop from
page 1. -/
def getBrandProductLinks (cfg : Config) (ext : Extern) (brandUrl : String)
    (st : St) : Out (List Ref) :=
  match matchBrandUrl brandUrl with
  | none =>
      { res := .thrown ("Invalid brand URL: " ++ brandUrl), st := st, evs := [] }
  | some (slug, ty, idd) =>
      paginate cfg ext slug ty idd (cfg.maxCredits + 1) 1 [] 0 st

/-- The per-item loop of `runIncrementalScraper`: scrape each new link; on a
product, append it to the output sink and reset the consecutive-old counter;
on a null result, bump the counter and abandon the rest of the brand at 3;
on a caught non-block error, log and continue with the counter untouched. -/
def scrapeLoop (cfg : Config) (ext : Extern) (brand : String) :
    List Ref → Nat → St → Out Unit
  | [], _, st => { res := .ok (), st := st, evs := [] }
  | link :: rest, oldProductCount, st =>
      match scrapeProduct cfg ext st link.url brand with
      | ⟨.ok (some product), st1, evs1⟩ =>
          let st2 := { st1 with scraped := st1.scraped ++ [product] }
          mapEvs (evs1 ++ [.sink product.id])
            (scrapeLoop cfg ext brand rest 0 st2)
      | ⟨.ok none, st1, evs1⟩ =>
          if oldProductCount + 1 ≥ 3 then
            { res := .ok (), st := st1,
              evs := evs1 ++ [.itemSkip link.url, .abandon brand] }
          else
            mapEvs (evs1 ++ [.itemSkip link.url])
              (scrapeLoop cfg ext brand rest (oldProductCount + 1) st1)
      | ⟨.thrown m, st1, evs1⟩ =>
          if containsSub m "BLOCK_DETECTED" then
            { res := .thrown m, st := st1, evs := evs1 }
          else
            mapEvs (evs1 ++ [.itemErr link.url])
              (scrapeLoop cfg ext brand rest oldProductCount st1)
      | ⟨.exited c, st1, evs1⟩ => { res := .exited c, st := st1, evs := evs1 }
      | ⟨.spun, st1, evs1⟩ => { res := .spun, st := st1, evs := evs1 }

/-- One category configuration entry of `BRAND_CATEGORIES`. -/
structure BrandCat where
  name : String
  url : String
  category : String
deriving DecidableEq, Repr

/-- The category-level recoverable-error handler: rethrow block-marked
errors, swallow (log) everything else and continue. -/
def handleCat (m : String) (st : St) (evs : List Ev) : Out Unit :=
  if containsSub m "BLOCK_DETECTED" then
    { res := .thrown m, st := st, evs := evs }
  else
    { res := .ok (), st := st, evs := evs }

/-- The per-category body of `runIncrementalScraper` (its inner
`try`/`catch`): discover new links, `continue` when there are none, run the
item loop, and flush the ledger after the item loop; recoverable errors are
caught at this boundary without a flush. -/
def runCategory (cfg : Config) (ext : Extern) (cat : BrandCat) (st : St) :
    Out Unit :=
  match getBrandProductLinks cfg ext cat.url st with
  | ⟨.ok newLinks, st1, evs1⟩ =>
      if newLinks.isEmpty then
        { res := .ok (), st := st1, evs := evs1 }
      else
        match scrapeLoop cfg ext cat.name newLinks 0 st1 with
        | ⟨.ok _, st2, evs2⟩ =>
            let o := saveSeenProducts ext st2
            { res := .ok (), st := o.st, evs := evs1 ++ evs2 ++ o.evs }
        | ⟨.thrown m, st2, evs2⟩ => handleCat m st2 (evs1 ++ evs2)
        | ⟨.exited c, st2, evs2⟩ =>
            { res := .exited c, st := st2, evs := evs1 ++ evs2 }
        | ⟨.spun, st2, evs2⟩ => { res := .spun, st := st2, evs := evs1 ++ evs2 }
  | ⟨.thrown m, st1, evs1⟩ => handleCat m st1 evs1
  | ⟨.exited c, st1, evs1⟩ => { res := .exited c, st := st1, evs := evs1 }
  | ⟨.spun, st1, evs1⟩ => { res := .spun, st := st1, evs := evs1 }

/-- The category loop of `runIncrementalScraper`. -/
def runCats (cfg : Config) (ext : Extern) : List BrandCat → St → Out Unit
  | [], st => { res := .ok (), st := st, evs := [] }
  | cat :: rest, st =>
      match runCategory cfg ext cat st with
      | ⟨.ok _, st1, evs1⟩ =>
          mapEvs (.catStart cat.name :: evs1) (runCats cfg ext rest st1)
      | ⟨.thrown m, st1, evs1⟩ =>
          { res := .thrown m, st := st1, evs := .catStart cat.name :: evs1 }
      | ⟨.exited c, st1, evs1⟩ =>
          { res := .exited c, st := st1, evs := .catStart cat.name :: evs1 }
      | ⟨.spun, st1, evs1⟩ =>
          { res := .spun, st := st1, evs := .catStart cat.name :: evs1 }

/-- The orchestrator `runIncrementalScraper`, started from the loaded
ledger: run all categories; a thrown error reaching the outer `catch` is
followed by a best-effort flush and `process.exit(1)`; a clean completion
ends the process with status 0 (modelled as `Res.ok`). -/
def runIncrementalScraper (cfg : Config) (ext : Extern) (cats : List BrandCat)
    (init : Ledger) : Out Unit :=
  let st0 : St :=
    { credits := 0, seen := init, disk := init, flushes := 0, time := 0,
      scraped := [] }
  match runCats cfg ext cats st0 with
  | ⟨.ok _, st1, evs1⟩ => { res := .ok (), st := st1, evs := evs1 }
  | ⟨.thrown _, st1, evs1⟩ =>
      let o := saveSeenProducts ext st1
      { res := .exited 1, st := o.st, evs := evs1 ++ o.evs }
  | ⟨.exited c, st1, evs1⟩ => { res := .exited c, st := st1, evs := evs1 }
  | ⟨.spun, st1, evs1⟩ => { res := .spun, st := st1, evs := evs1 }

/-- The seed list `BRAND_CATEGORIES` (the uncommented entries). -/
def BRAND_CATEGORIES : List BrandCat :=
  [⟨"apple", "https://www.gsmarena.com/apple-phones-48.php", "phones"⟩,
   ⟨"samsung", "https://www.gsmarena.com/samsung-phones-9.php", "phones"⟩,
   ⟨"xiaomi", "https://www.gsmarena.com/xiaomi-phones-80.php", "phones"⟩,
   ⟨"oppo", "https://www.gsmarena.com/oppo-phones-82.php", "phones"⟩,
   ⟨"vivo", "https://www.gsmarena.com/vivo-phones-98.php", "phones"⟩,
   ⟨"google", "https://www.gsmarena.com/google-phones-107.php", "phones"⟩,
   ⟨"infinix", "https://www.gsmarena.com/infinix-phones-119.php", "phones"⟩,
   ⟨"tecno", "https://www.gsmarena.com/tecno-phones-120.php", "phones"⟩,
   ⟨"itel", "https://www.gsmarena.com/itel-phones-131.php", "phones"⟩,
   ⟨"nothing", "https://www.gsmarena.com/nothing-phones-128.php", "phones"⟩,
   ⟨"motorola", "https://www.gsmarena.com/motorola-phones-4.php", "phones"⟩,
   ⟨"realme", "https://www.gsmarena.com/realme-phones-118.php", "phones"⟩,
   ⟨"oneplus", "https://www.gsmarena.com/oneplus-phones-95.php", "phones"⟩,
   ⟨"asus", "https://www.gsmarena.com/asus-phones-46.php", "phones"⟩,
   ⟨"micromax", "https://www.gsmarena.com/micromax-phones-66.php", "phones"⟩,
   ⟨"nokia", "https://www.gsmarena.com/nokia-phones-1.php", "phones"⟩,
   ⟨"lenovo", "https://www.gsmarena.com/lenovo-phones-73.php", "phones"⟩,
   ⟨"honor", "https://www.gsmarena.com/honor-phones-121.php", "phones"⟩,
   ⟨"sony", "https://www.gsmarena.com/sony-phones-7.php", "phones"⟩]

/-- Count of charged fetches in a trace. -/
def fetchCount (evs : List Ev) : Nat :=
  (evs.filter fun e => match e with | .fetch _ => true | _ => false).length

/-- Whether a trace contains a ledger flush. -/
def hasFlush (evs : List Ev) : Bool :=
  evs.any fun e => match e with | .flush _ _ => true | _ => false

/-- Whether a trace contains a ledger insertion. -/
def hasAccept (evs : List Ev) : Bool :=
  evs.any fun e => match e with | .accept _ _ => true | _ => false

/-- Whether a trace contains a charged fetch of the given URL. -/
def hasFetchOf (evs : List Ev) (url : String) : Bool :=
  evs.any fun e => match e with | .fetch u => u == url | _ => false

/-- Replay of ledger insertions: the mapping obtained from an initial
mapping by applying the `accept` events of a trace in order. -/
def ledgerAfter (init : Ledger) (evs : List Ev) : Ledger :=
  evs.foldl
    (fun m e => match e with | .accept pid entry => setA m pid entry | _ => m)
    init

/-- Field names of a persisted entry object. -/
def fieldsOf (e : EntryObj) : List String := e.map Prod.fst

/-- Concrete test category: the apple phones listing. -/
def catA : BrandCat :=
  ⟨"apple", "https://www.gsmarena.com/apple-phones-48.php", "phones"⟩

/-- Listing page URLs of the test category. -/
def pApple (n : Nat) : String := pageUrl "apple" "phones" "48" n

/-- Concrete cheerio selection oracle: body "LP" lists one product, body
"L4" lists four, body "L9" lists one with id 9, anything else is empty. -/
def selFx : String → List String := fun b =>
  if b = "LP" then ["x-1.php"]
  else if b = "L4" then ["a-1.php", "a-2.php", "a-3.php", "a-4.php"]
  else if b = "L9" then ["x-9.php"]
  else []

/-- Concrete DOM oracle: body "IP" is a valid 2024 product page, anything
else has an empty `h1` (so product parsing fails). -/
def domFx : String → Dom := fun b =>
  if b = "IP" then ⟨"Acme One", none, [("Launch", [("Announced", "2024, March")])]⟩
  else ⟨"", none, []⟩

/-- Test transport for the credit-ceiling scenario: every page lists one
product. -/
def extC1 : Extern :=
  { net := fun _ => .ok "LP", select := selFx, dom := domFx,
    clock := fun _ => "T", writeOk := fun _ => true }

/-- Test transport for the block scenario: page 1 of the test category
contains a block keyword. -/
def extC2 : Extern :=
  { net := fun u => if u = pApple 1 then .ok "captcha" else .ok "",
    select := selFx, dom := domFx, clock := fun _ => "T",
    writeOk := fun _ => true }

/-- Test transport for a one-product source: page 1 lists product 1, its
product page parses as a 2024 product, page 2 is an empty listing. -/
def extC3 : Extern :=
  { net := fun u =>
      if u = pApple 1 then .ok "LP"
      else if u = BASE ++ "/x-1.php" then .ok "IP"
      else .ok "",
    select := selFx, dom := domFx, clock := fun _ => "T",
    writeOk := fun _ => true }

/-- Test transport for an empty listing. -/
def extC4 : Extern :=
  { net := fun _ => .ok "", select := selFx, dom := domFx,
    clock := fun _ => "T", writeOk := fun _ => true }

/-- Test transport where page 1 lists four products whose product pages all
fail extraction (empty `h1`). -/
def extC6 : Extern :=
  { net := fun u => if u = pApple 1 then .ok "L4" else .ok "",
    select := selFx, dom := domFx, clock := fun _ => "T",
    writeOk := fun _ => true }

/-- Test transport where every page lists only the already-seen product 9. -/
def extC7 : Extern :=
  { net := fun _ => .ok "L9", select := selFx, dom := domFx,
    clock := fun _ => "T", writeOk := fun _ => true }

/-- Test transport like `extC3` but with every ledger write failing. -/
def extC10 : Extern :=
  { net := fun u =>
      if u = pApple 1 then .ok "LP"
      else if u = BASE ++ "/x-1.php" then .ok "IP"
      else .ok "",
    select := selFx, dom := domFx, clock := fun _ => "T",
    writeOk := fun _ => false }

/-- A small credit ceiling for the budget scenario. -/
def cfg2 : Config := { maxCredits := 2, minLaunchYear := 2023 }

/-- A roomy credit ceiling for the other scenarios. -/
def cfg50 : Config := { maxCredits := 50, minLaunchYear := 2023 }

/-- A ledger already containing product 9 (as recorded by the scraper). -/
def seen9 : Ledger := [("9", mkSeenEntry "9" "N" "T")]

/-- Per-reference outcome of the item loop: product accepted, null result
(already seen, out of scope, or a failure caught inside `scrapeProduct`), or
an error caught at the loop boundary. -/
inductive IOut
  | acc
  | skp
  | erk
deriving DecidableEq, Repr

/-- Projection of a trace to the per-reference outcomes of the item loop. -/
def outcomesOf (evs : List Ev) : List IOut :=
  evs.filterMap fun e =>
    match e with
    | .accept _ _ => some .acc
    | .itemSkip _ => some .skp
    | .itemErr _ => some .erk
    | _ => none

/-- The consecutive-skip counter over an outcome list, from a starting
value: a null bumps it, an accepted product resets it, a loop-caught error
leaves it untouched. -/
def ctrFrom (c : Nat) : List IOut → Nat
  | [] => c
  | .acc :: rest => ctrFrom 0 rest
  | .erk :: rest => ctrFrom c rest
  | .skp :: rest => ctrFrom (c + 1) rest

/-- Validity of an outcome list for the consecutive-skip rule: once the
counter reaches 3 on a null, no further reference may be processed. -/
def validFrom (c : Nat) : List IOut → Bool
  | [] => true
  | .acc :: rest => validFrom 0 rest
  | .erk :: rest => validFrom c rest
  | .skp :: rest => if 3 ≤ c + 1 then rest.isEmpty else validFrom (c + 1) rest

/-- Hypothesis for the early-stop property: fetching the given listing page
yields no reference unseen by `seen`. -/
def NoNew (ext : Extern) (seen : Ledger) (slug ty idd : String) (n : Nat) : Prop :=
  ∀ b, ext.net (pageUrl slug ty idd n) = FetchOutcome.ok b →
    (parseBrandListing ext.select b).filter
      (fun link => !(lookupA seen link.id).isSome) = []

/-- Hypothesis for the idempotence property: every reference listed anywhere
by the source is already in `seen`. -/
def AllSeen (ext : Extern) (seen : Ledger) : Prop :=
  ∀ url b, ext.net url = FetchOutcome.ok b →
    ∀ link ∈ parseBrandListing ext.select b, (lookupA seen link.id).isSome = true

/-- A step outcome in which block detection is terminal: no event follows a
`blockHit` and the result is the thrown block error. -/
def BlockTail {α : Type} (o : Out α) : Prop :=
  ∀ pre u post, o.evs = pre ++ Ev.blockHit u :: post →
    post = [] ∧ o.res = Res.thrown blockMsg

/-- State invariant of a step relative to its input state: the final
in-memory mapping is the replay of the step's `accept` events, existing
entries survive unchanged, and every entry of the final mapping either was
already present or has the shape written by `scrapeProduct`. -/
def StInv {α : Type} (st : St) (o : Out α) : Prop :=
  o.st.seen = ledgerAfter st.seen o.evs ∧
  (∀ pid e, lookupA st.seen pid = some e → lookupA o.st.seen pid = some e) ∧
  (∀ pid e, lookupA o.st.seen pid = some e →
    lookupA st.seen pid = some e ∨ ∃ n t, e = mkSeenEntry pid n t)

/-- Control invariant of a step: a `process.exit` escaping it carries code
0, a thrown error escaping it carries the block marker, and block detection
is terminal. -/
def CtlInv {α : Type} (o : Out α) : Prop :=
  (∀ cd, o.res = Res.exited cd → cd = 0) ∧
  (∀ m, o.res = Res.thrown m → containsSub m "BLOCK_DETECTED" = true) ∧
  BlockTail o

/-- A step that never touches the in-memory mapping and accepts nothing. -/
def NoLedger {α : Type} (st : St) (o : Out α) : Prop :=
  o.st.seen = st.seen ∧ (∀ s, ledgerAfter s o.evs = s) ∧ hasAccept o.evs = false

/-! Lemmas about the association-list ledger operations. -/

theorem lookupA_setA_self {α : Type} (m : List (String × α)) (k : String) (v : α) :
    lookupA (setA m k v) k = some v := by
  induction m with
  | nil => simp [setA, lookupA]
  | cons hd t ih =>
      obtain ⟨k0, v0⟩ := hd
      by_cases hk : k0 = k
      · simp [setA, lookupA, hk]
      · simp [setA, lookupA, hk, ih]

theorem lookupA_setA_ne {α : Type} (m : List (String × α)) (k q : String) (v : α)
    (h : q ≠ k) : lookupA (setA m k v) q = lookupA m q := by
  induction m with
  | nil => simp [setA, lookupA, Ne.symm h]
  | cons hd t ih =>
      obtain ⟨k0, v0⟩ := hd
      by_cases hk : k0 = k
      · subst hk
        simp [setA, lookupA, Ne.symm h]
      · simp [setA, lookupA, hk, ih]

/-! Lemmas about list decompositions and trace bookkeeping. -/

theorem append_split_mid {α : Type} {l1 l2 pre post : List α} {x : α}
    (h : l1 ++ l2 = pre ++ x :: post) (hx : x ∉ l1) :
    ∃ mid, pre = l1 ++ mid ∧ l2 = mid ++ x :: post := by
  induction l1 generalizing pre with
  | nil => exact ⟨pre, by simp, by simpa using h⟩
  | cons a t ih =>
      simp only [List.mem_cons, not_or] at hx
      cases pre with
      | nil =>
          simp only [List.nil_append, List.cons_append, List.cons.injEq] at h
          exact absurd h.1.symm hx.1
      | cons p pre2 =>
          simp only [List.cons_append, List.cons.injEq] at h
          obtain ⟨mid, h3, h4⟩ := ih h.2 hx.2
          exact ⟨mid, by simp [h.1, h3], h4⟩

theorem append_single_split {α : Type} {l : List α} {f x : α} {pre post : List α}
    (h : l ++ [f] = pre ++ x :: post) (hxf : x ≠ f) :
    ∃ mid, post = mid ++ [f] ∧ l = pre ++ x :: mid := by
  induction l generalizing pre with
  | nil =>
      cases pre with
      | nil =>
          simp only [List.nil_append, List.cons.injEq] at h
          exact absurd h.1.symm hxf
      | cons p pre2 =>
          simp only [List.nil_append, List.cons_append, List.cons.injEq] at h
          exact absurd h.2 (by simp)
  | cons a t ih =>
      cases pre with
      | nil =>
          simp only [List.cons_append, List.nil_append, List.cons.injEq] at h
          exact ⟨t, h.2.symm, by simp [h.1]⟩
      | cons p pre2 =>
          simp only [List.cons_append, List.cons.injEq] at h
          obtain ⟨mid, h3, h4⟩ := ih h.2
          exact ⟨mid, h3, by simp [h.1, h4]⟩

theorem ledgerAfter_append (i : Ledger) (a b : List Ev) :
    ledgerAfter i (a ++ b) = ledgerAfter (ledgerAfter i a) b := by
  simp [ledgerAfter, List.foldl_append]

theorem fetchCount_append (a b : List Ev) :
    fetchCount (a ++ b) = fetchCount a + fetchCount b := by
  simp [fetchCount, List.filter_append]

theorem hasAccept_append (a b : List Ev) :
    hasAccept (a ++ b) = (hasAccept a || hasAccept b) := by
  simp [hasAccept, List.any_append]

/-! Characterization of the transport wrapper. -/

theorem fetch_cases (cfg : Config) (ext : Extern) (st : St) (url : String) :
    (∃ b, ext.net url = .ok b ∧ isBlocked b = false ∧
       fetchWithScraperAPI cfg ext st url =
         { res := .ok b, st := { st with credits := st.credits + 1 },
           evs := [.fetch url] }) ∨
    (fetchWithScraperAPI cfg ext st url =
       { res := .thrown blockMsg, st := { st with credits := st.credits + 1 },
         evs := [.fetch url, .blockHit url] }) ∨
    (∃ m, fetchWithScraperAPI cfg ext st url =
       { res := .thrown ("ScraperAPI request failed: " ++ m),
         st := { st with credits := st.credits + 1 }, evs := [.fetch url] }) ∨
    (cfg.maxCredits ≤ st.credits + 1 ∧
       fetchWithScraperAPI cfg ext st url =
         { res := .exited 0, st := { st with credits := st.credits + 1 },
           evs := [.fetch url] }) := by
  unfold fetchWithScraperAPI
  by_cases hc : cfg.maxCredits ≤ st.credits + 1
  · right; right; right; exact ⟨hc, by simp [hc]⟩
  · cases hn : ext.net url with
    | err m => right; right; left; exact ⟨m, by simp [hc, hn]⟩
    | ok b =>
        by_cases hb : isBlocked b
        · right; left; simp [hc, hn, hb]
        · left
          exact ⟨b, rfl, by simpa using hb, by simp [hc, hb]⟩

/-! Helpers for the block-is-terminal invariant. -/

theorem blockTail_of_no_hit {α : Type} {o : Out α}
    (h : ∀ u, Ev.blockHit u ∉ o.evs) : BlockTail o := by
  intro pre u post hevs
  exact absurd
    (by rw [hevs]; exact List.mem_append_right _ (List.mem_cons_self _ _)) (h u)

theorem blockTail_fetch_block {α : Type} {o : Out α} {u0 : String}
    (he : o.evs = [Ev.fetch u0, Ev.blockHit u0])
    (hr : o.res = Res.thrown blockMsg) : BlockTail o := by
  intro pre u post hevs
  rw [he] at hevs
  rcases pre with _ | ⟨e1, _ | ⟨e2, pre3⟩⟩ <;> simp_all

theorem blockTail_mapEvs {α : Type} {pre : List Ev} {o : Out α}
    (hpre : ∀ u, Ev.blockHit u ∉ pre) (h : BlockTail o) :
    BlockTail (mapEvs pre o) := by
  intro p u q hevs
  obtain ⟨mid, -, ho⟩ :=
    @append_split_mid Ev pre o.evs p q (Ev.blockHit u) hevs (hpre u)
  exact (h mid u q ho).imp_right fun hr => hr

theorem no_hit_of_blockTail {α : Type} {o : Out α} (h : BlockTail o)
    (hr : o.res ≠ Res.thrown blockMsg) : ∀ u, Ev.blockHit u ∉ o.evs := by
  intro u hu
  obtain ⟨s, t, hst⟩ := List.append_of_mem hu
  exact hr (h s u t hst).2

theorem blockMsg_marked : containsSub blockMsg "BLOCK_DETECTED" = true := by decide

/-! Derived facts about the transport wrapper. -/

theorem fetch_no_hit_of_ok (cfg : Config) (ext : Extern) (st : St) (url : String)
    {b : String}
    (h : fetchWithScraperAPI cfg ext st url =
      { res := .ok b, st := { st with credits := st.credits + 1 },
        evs := [.fetch url] }) :
    ∀ u, Ev.blockHit u ∉ (fetchWithScraperAPI cfg ext st url).evs := by
  intro u
  rw [h]
  simp

/-! Facts about the state flush. -/

theorem saveSeen_shape (ext : Extern) (st : St) :
    (saveSeenProducts ext st).res = .ok () ∧
    (saveSeenProducts ext st).st.seen = st.seen ∧
    (saveSeenProducts ext st).evs = [.flush st.seen (ext.writeOk st.flushes)] ∧
    (ext.writeOk st.flushes = false → (saveSeenProducts ext st).st.disk = st.disk) ∧
    (ext.writeOk st.flushes = true → (saveSeenProducts ext st).st.disk = st.seen) := by
  refine ⟨rfl, rfl, rfl, ?_, ?_⟩ <;> intro h <;> simp [saveSeenProducts, h]

/-! Characterization of the item pipeline. -/

theorem scrapeProduct_cases (cfg : Config) (ext : Extern) (st : St)
    (url brand : String) :
    ((scrapeProduct cfg ext st url brand).st.seen = st.seen ∧
     outcomesOf (scrapeProduct cfg ext st url brand).evs = [] ∧
     (∀ s, ledgerAfter s (scrapeProduct cfg ext st url brand).evs = s) ∧
     (∀ p, (scrapeProduct cfg ext st url brand).res ≠ Res.ok (some p)) ∧
     (∀ cd, (scrapeProduct cfg ext st url brand).res = Res.exited cd → cd = 0)) ∨
    (∃ pid p, extractProductId url = some pid ∧
       lookupA st.seen pid = none ∧
       (scrapeProduct cfg ext st url brand).res = Res.ok (some p) ∧
       cfg.minLaunchYear ≤ p.launchYear ∧
       (scrapeProduct cfg ext st url brand).st.seen =
         setA st.seen pid (mkSeenEntry pid p.name p.scrapedAt) ∧
       outcomesOf (scrapeProduct cfg ext st url brand).evs = [IOut.acc] ∧
       (∀ s, ledgerAfter s (scrapeProduct cfg ext st url brand).evs =
         setA s pid (mkSeenEntry pid p.name p.scrapedAt))) := by
  unfold scrapeProduct
  cases hid : extractProductId url with
  | none => left; simp [outcomesOf, ledgerAfter]
  | some pid =>
      by_cases hseen : (lookupA st.seen pid).isSome
      · left
        simp [hseen, outcomesOf, ledgerAfter]
      · rcases fetch_cases cfg ext st url with ⟨b, hn, hb, h⟩ | h | ⟨m, h⟩ | ⟨hc, h⟩ <;>
          rw [h] <;> simp only [hseen, if_neg, Bool.false_eq_true, not_false_eq_true]
        · cases hp : parseProductPage ext.dom b url brand
            (ext.clock ({ st with credits := st.credits + 1 } : St).time) with
          | error e => left; simp [hseen, hp, outcomesOf, ledgerAfter]
          | ok product =>
              by_cases hy : product.launchYear < cfg.minLaunchYear
              · left; simp [hseen, hp, hy, outcomesOf, ledgerAfter]
              · right
                refine ⟨pid, product, rfl, by simpa using hseen, ?_, ?_, ?_, ?_, ?_⟩ <;>
                  simp [hseen, hp, hy, outcomesOf, ledgerAfter, Nat.le_of_not_lt]
        · left
          simp [hseen, blockMsg_marked, outcomesOf, ledgerAfter]
        · by_cases hm : containsSub ("ScraperAPI request failed: " ++ m) "BLOCK_DETECTED"
          · left; simp [hseen, hm, outcomesOf, ledgerAfter]
          · left; simp [hseen, hm, outcomesOf, ledgerAfter]
        · left
          simp [hseen, outcomesOf, ledgerAfter]

theorem scrapeProduct_blockTail (cfg : Config) (ext : Extern) (st : St)
    (url brand : String) : BlockTail (scrapeProduct cfg ext st url brand) := by
  unfold scrapeProduct
  cases hid : extractProductId url with
  | none => exact blockTail_of_no_hit (by simp)
  | some pid =>
      by_cases hseen : (lookupA st.seen pid).isSome
      · exact blockTail_of_no_hit (by simp [hseen])
      · rcases fetch_cases cfg ext st url with ⟨b, hn, hb, h⟩ | h | ⟨m, h⟩ | ⟨hc, h⟩ <;>
          rw [h]
        · cases hp : parseProductPage ext.dom b url brand
            (ext.clock ({ st with credits := st.credits + 1 } : St).time) with
          | error e => exact blockTail_of_no_hit (by simp [hseen, hp])
          | ok product =>
              by_cases hy : product.launchYear < cfg.minLaunchYear
              · exact blockTail_of_no_hit (by simp [hseen, hp, hy])
              · exact blockTail_of_no_hit (by simp [hseen, hp, hy])
        · exact @blockTail_fetch_block _ _ url (by simp [hseen, blockMsg_marked])
            (by simp [hseen, blockMsg_marked])
        · by_cases hm : containsSub ("ScraperAPI request failed: " ++ m) "BLOCK_DETECTED"
          · exact blockTail_of_no_hit (by simp [hseen, hm])
          · exact blockTail_of_no_hit (by simp [hseen, hm])
        · exact blockTail_of_no_hit (by simp [hseen])

theorem scrapeProduct_exited (cfg : Config) (ext : Extern) (st : St)
    (url brand : String) :
    ∀ cd, (scrapeProduct cfg ext st url brand).res = Res.exited cd → cd = 0 := by
  rcases scrapeProduct_cases cfg ext st url brand with ⟨-, -, -, -, hz⟩ | ⟨pid, p, -, -, hr, -⟩
  · exact hz
  · intro cd h
    rw [hr] at h
    cases h

/-! Composition helpers for the state and control invariants. -/

theorem stInv_of_pure {α : Type} {st : St} {o : Out α} (h1 : o.st.seen = st.seen)
    (h2 : ∀ s, ledgerAfter s o.evs = s) : StInv st o :=
  ⟨by rw [h1, h2], fun pid e he => by rw [h1]; exact he,
   fun pid e he => Or.inl (by rwa [h1] at he)⟩

theorem stInv_insert {α : Type} {st : St} {o : Out α} {pid n t : String}
    (h0 : lookupA st.seen pid = none)
    (h1 : o.st.seen = setA st.seen pid (mkSeenEntry pid n t))
    (h2 : ∀ s, ledgerAfter s o.evs = setA s pid (mkSeenEntry pid n t)) :
    StInv st o := by
  refine ⟨by rw [h1, h2], ?_, ?_⟩
  · intro q e he
    have hq : q ≠ pid := by
      intro hqe
      rw [hqe, h0] at he
      cases he
    rw [h1, lookupA_setA_ne _ _ _ _ hq]
    exact he
  · intro q e he
    rw [h1] at he
    by_cases hq : q = pid
    · subst hq
      rw [lookupA_setA_self] at he
      exact Or.inr ⟨n, t, (Option.some.inj he).symm⟩
    · rw [lookupA_setA_ne _ _ _ _ hq] at he
      exact Or.inl he

theorem stInv_comp {α β γ : Type} {st : St} {o1 : Out α} {o2 : Out β} {r : Res γ}
    (h1 : StInv st o1) (h2 : StInv o1.st o2) :
    StInv st { res := r, st := o2.st, evs := o1.evs ++ o2.evs } := by
  obtain ⟨c1, m1, p1⟩ := h1
  obtain ⟨c2, m2, p2⟩ := h2
  refine ⟨?_, fun pid e he => m2 _ _ (m1 _ _ he), ?_⟩
  · show o2.st.seen = ledgerAfter st.seen (o1.evs ++ o2.evs)
    rw [ledgerAfter_append, ← c1, c2]
  · intro pid e he
    rcases p2 _ _ he with h | h
    · exact p1 _ _ h
    · exact Or.inr h

theorem stInv_glue {α : Type} {st mid : St} {pre : List Ev} {o : Out α}
    (hc : mid.seen = ledgerAfter st.seen pre)
    (hm : ∀ pid e, lookupA st.seen pid = some e → lookupA mid.seen pid = some e)
    (hp : ∀ pid e, lookupA mid.seen pid = some e →
        lookupA st.seen pid = some e ∨ ∃ n t, e = mkSeenEntry pid n t)
    (h2 : StInv mid o) : StInv st (mapEvs pre o) := by
  obtain ⟨c2, m2, p2⟩ := h2
  refine ⟨?_, ?_, ?_⟩
  · show o.st.seen = ledgerAfter st.seen (pre ++ o.evs)
    rw [ledgerAfter_append, ← hc]
    exact c2
  · exact fun pid e he => m2 _ _ (hm _ _ he)
  · intro pid e he
    rcases p2 _ _ he with h | h
    · exact hp _ _ h
    · exact Or.inr h

theorem ctlInv_mapEvs {α : Type} {pre : List Ev} {o : Out α}
    (hpre : ∀ u, Ev.blockHit u ∉ pre) (h : CtlInv o) : CtlInv (mapEvs pre o) :=
  ⟨h.1, h.2.1, blockTail_mapEvs hpre h.2.2⟩

theorem ctlInv_ok {α : Type} {o : Out α} {a : α} (hr : o.res = .ok a)
    (hnh : ∀ u, Ev.blockHit u ∉ o.evs) : CtlInv o := by
  refine ⟨?_, ?_, blockTail_of_no_hit hnh⟩ <;> intro x h <;> rw [hr] at h <;> cases h

theorem ctlInv_exit0 {α : Type} {o : Out α} (hr : o.res = .exited 0)
    (hnh : ∀ u, Ev.blockHit u ∉ o.evs) : CtlInv o := by
  refine ⟨?_, ?_, blockTail_of_no_hit hnh⟩ <;> intro x h <;> rw [hr] at h
  · cases h
    rfl
  · cases h

theorem ctlInv_spun {α : Type} {o : Out α} (hr : o.res = .spun)
    (hnh : ∀ u, Ev.blockHit u ∉ o.evs) : CtlInv o := by
  refine ⟨?_, ?_, blockTail_of_no_hit hnh⟩ <;> intro x h <;> rw [hr] at h <;> cases h

theorem ctlInv_marked {α : Type} {o : Out α} {m : String} (hr : o.res = .thrown m)
    (hm : containsSub m "BLOCK_DETECTED" = true)
    (hnh : ∀ u, Ev.blockHit u ∉ o.evs) : CtlInv o := by
  refine ⟨?_, ?_, blockTail_of_no_hit hnh⟩ <;> intro x h <;> rw [hr] at h
  · cases h
  · cases h
    exact hm

theorem ctlInv_block {α : Type} {o : Out α} {u0 : String}
    (hr : o.res = .thrown blockMsg) (he : o.evs = [Ev.fetch u0, Ev.blockHit u0]) :
    CtlInv o := by
  refine ⟨?_, ?_, blockTail_fetch_block he hr⟩ <;> intro x h <;> rw [hr] at h
  · cases h
  · cases h
    exact blockMsg_marked

/-! Invariants of the pagination loop. -/

theorem noLedger_mapEvs {α : Type} {st st1 : St} {o : Out α} {pre : List Ev}
    (hs : st1.seen = st.seen) (hl : ∀ s, ledgerAfter s pre = s)
    (ha : hasAccept pre = false) (h : NoLedger st1 o) :
    NoLedger st (mapEvs pre o) := by
  obtain ⟨h1, h2, h3⟩ := h
  refine ⟨?_, ?_, ?_⟩
  · show o.st.seen = st.seen
    rw [h1, hs]
  · intro s
    show ledgerAfter s (pre ++ o.evs) = s
    rw [ledgerAfter_append, hl, h2]
  · show hasAccept (pre ++ o.evs) = false
    rw [hasAccept_append, ha, h3]
    rfl

theorem paginate_props (cfg : Config) (ext : Extern) (slug ty idd : String) :
    ∀ fuel page acc c st,
      NoLedger st (paginate cfg ext slug ty idd fuel page acc c st) ∧
      CtlInv (paginate cfg ext slug ty idd fuel page acc c st) := by
  intro fuel
  induction fuel with
  | zero =>
      intro page acc c st
      exact ⟨⟨rfl, fun s => rfl, rfl⟩, ctlInv_spun rfl (by simp [paginate])⟩
  | succ fuel ih =>
      intro page acc c st
      rcases fetch_cases cfg ext st (pageUrl slug ty idd page) with
        ⟨b, hn, hb, h⟩ | h | ⟨m, h⟩ | ⟨hc, h⟩ <;>
        simp only [paginate, h]
      · split
        · exact ⟨⟨rfl, fun s => rfl, rfl⟩, ctlInv_ok rfl (by simp)⟩
        · split
          · split
            · exact ⟨⟨rfl, fun s => rfl, rfl⟩, ctlInv_ok rfl (by simp)⟩
            · refine ⟨noLedger_mapEvs rfl (fun s => rfl) rfl ?_,
                ctlInv_mapEvs (by simp) ?_⟩
              · exact (ih _ _ _ _).1
              · exact (ih _ _ _ _).2
          · refine ⟨noLedger_mapEvs rfl (fun s => rfl) rfl ?_,
              ctlInv_mapEvs (by simp) ?_⟩
            · exact (ih _ _ _ _).1
            · exact (ih _ _ _ _).2
      · split
        · exact ⟨⟨rfl, fun s => rfl, rfl⟩,
            @ctlInv_block _ _ (pageUrl slug ty idd page) rfl rfl⟩
        · rename_i hcond
          exact absurd blockMsg_marked hcond
      · split
        · rename_i hcond
          exact ⟨⟨rfl, fun s => rfl, rfl⟩, ctlInv_marked rfl hcond (by simp)⟩
        · exact ⟨⟨rfl, fun s => rfl, rfl⟩, ctlInv_ok rfl (by simp)⟩
      · exact ⟨⟨rfl, fun s => rfl, rfl⟩, ctlInv_exit0 rfl (by simp)⟩

/-! Invariants of the item loop. -/

theorem stInv_pad {α β : Type} {st : St} {o : Out α} (h : StInv st o) {r : Res β}
    {st2 : St} {extra : List Ev} (hs : st2.seen = o.st.seen)
    (hl : ∀ s, ledgerAfter s extra = s) :
    StInv st { res := r, st := st2, evs := o.evs ++ extra } := by
  obtain ⟨h1, h2, h3⟩ := h
  refine ⟨?_, ?_, ?_⟩
  · show st2.seen = ledgerAfter st.seen (o.evs ++ extra)
    rw [ledgerAfter_append, hl, hs, h1]
  · intro pid e he
    show lookupA st2.seen pid = some e
    rw [hs]
    exact h2 _ _ he
  · intro pid e he
    rw [show lookupA st2.seen pid = lookupA o.st.seen pid from by rw [hs]] at he
    exact h3 _ _ he

theorem stInv_cast {α β : Type} {st : St} {o : Out α} (h : StInv st o) {r : Res β}
    {st2 : St} (hs : st2.seen = o.st.seen) :
    StInv st { res := r, st := st2, evs := o.evs } := by
  obtain ⟨h1, h2, h3⟩ := h
  refine ⟨?_, ?_, ?_⟩
  · show st2.seen = ledgerAfter st.seen o.evs
    rw [hs, h1]
  · intro pid e he
    show lookupA st2.seen pid = some e
    rw [hs]
    exact h2 _ _ he
  · intro pid e he
    rw [show lookupA st2.seen pid = lookupA o.st.seen pid from by rw [hs]] at he
    exact h3 _ _ he

theorem no_hit_append {a b : List Ev} (ha : ∀ u, Ev.blockHit u ∉ a)
    (hb : ∀ u, Ev.blockHit u ∉ b) : ∀ u, Ev.blockHit u ∉ a ++ b := by
  intro u h
  rcases List.mem_append.mp h with h | h
  · exact ha u h
  · exact hb u h

theorem blockTail_retype {α β : Type} {o : Out α} {m : String} {st2 : St}
    (h : BlockTail o) (hr : o.res = Res.thrown m) :
    BlockTail { res := (Res.thrown m : Res β), st := st2, evs := o.evs } := by
  intro pre u post hevs
  obtain ⟨hpost, hres⟩ := h pre u post hevs
  refine ⟨hpost, ?_⟩
  rw [hr] at hres
  injection hres with he
  rw [he]

theorem stInv_base {α : Type} {st st2 : St} {o : Out α} (h : StInv st2 o)
    (hs : st2.seen = st.seen) : StInv st o := by
  obtain ⟨h1, h2, h3⟩ := h
  rw [hs] at h1 h2 h3
  exact ⟨h1, h2, h3⟩

theorem scrapeProduct_stInv (cfg : Config) (ext : Extern) (st : St)
    (url brand : String) : StInv st (scrapeProduct cfg ext st url brand) := by
  rcases scrapeProduct_cases cfg ext st url brand with
    ⟨h1, -, h3, -, -⟩ | ⟨pid, p, -, h0, -, -, h5, -, h7⟩
  · exact stInv_of_pure h1 h3
  · exact stInv_insert h0 h5 h7

theorem scrapeLoop_props (cfg : Config) (ext : Extern) (brand : String) :
    ∀ links c st,
      StInv st (scrapeLoop cfg ext brand links c st) ∧
      CtlInv (scrapeLoop cfg ext brand links c st) := by
  intro links
  induction links with
  | nil =>
      intro c st
      exact ⟨stInv_of_pure rfl (fun s => rfl), ctlInv_ok rfl (by simp [scrapeLoop])⟩
  | cons link rest ih =>
      intro c st
      have hstv := scrapeProduct_stInv cfg ext st link.url brand
      have hbt := scrapeProduct_blockTail cfg ext st link.url brand
      have hex := scrapeProduct_exited cfg ext st link.url brand
      rcases hsp : scrapeProduct cfg ext st link.url brand with ⟨r, st1, evs1⟩
      rw [hsp] at hstv hbt hex
      cases r with
      | ok a =>
          have hnh1 : ∀ u, Ev.blockHit u ∉ evs1 :=
            no_hit_of_blockTail hbt (by simp)
          cases a with
          | some product =>
              simp only [scrapeLoop, hsp]
              refine ⟨stInv_glue ?_ hstv.2.1 hstv.2.2 (ih 0 _).1,
                ctlInv_mapEvs (no_hit_append hnh1 (by simp)) (ih 0 _).2⟩
              rw [ledgerAfter_append]
              exact hstv.1
          | none =>
              simp only [scrapeLoop, hsp]
              split
              · refine ⟨stInv_pad hstv rfl ?_,
                  ctlInv_ok rfl (no_hit_append hnh1 (by simp))⟩
                intro s
                rfl
              · refine ⟨stInv_glue ?_ hstv.2.1 hstv.2.2 (ih _ _).1,
                  ctlInv_mapEvs (no_hit_append hnh1 (by simp)) (ih _ _).2⟩
                rw [ledgerAfter_append]
                exact hstv.1
      | thrown m =>
          simp only [scrapeLoop, hsp]
          split
          · rename_i hcond
            refine ⟨stInv_cast hstv rfl, ?_, ?_, blockTail_retype hbt rfl⟩
            · intro cd h
              cases h
            · intro m2 h
              injection h with he
              rw [← he]
              exact hcond
          · rename_i hcond
            have hmn : ∀ u, Ev.blockHit u ∉ evs1 := by
              refine no_hit_of_blockTail hbt ?_
              intro hmb
              have he : m = blockMsg := by injection hmb
              rw [he] at hcond
              exact hcond blockMsg_marked
            refine ⟨stInv_glue ?_ hstv.2.1 hstv.2.2 (ih _ _).1,
              ctlInv_mapEvs (no_hit_append hmn (by simp)) (ih _ _).2⟩
            rw [ledgerAfter_append]
            exact hstv.1
      | exited cd =>
          have hcd : cd = 0 := hex cd rfl
          subst hcd
          have hnh1 : ∀ u, Ev.blockHit u ∉ evs1 :=
            no_hit_of_blockTail hbt (by simp)
          simp only [scrapeLoop, hsp]
          exact ⟨stInv_cast hstv rfl, ctlInv_exit0 rfl hnh1⟩
      | spun =>
          have hnh1 : ∀ u, Ev.blockHit u ∉ evs1 :=
            no_hit_of_blockTail hbt (by simp)
          simp only [scrapeLoop, hsp]
          exact ⟨stInv_cast hstv rfl, ctlInv_spun rfl hnh1⟩

/-! Invariants of the category body, the category loop and the run. -/

theorem runCategory_props (cfg : Config) (ext : Extern) (cat : BrandCat) (st : St) :
    StInv st (runCategory cfg ext cat st) ∧ CtlInv (runCategory cfg ext cat st) := by
  cases hm : matchBrandUrl cat.url with
  | none =>
      simp only [runCategory, getBrandProductLinks, hm, handleCat]
      split
      · rename_i hcond
        exact ⟨stInv_of_pure rfl (fun s => rfl), ctlInv_marked rfl hcond (by simp)⟩
      · exact ⟨stInv_of_pure rfl (fun s => rfl), ctlInv_ok rfl (by simp)⟩
  | some trip =>
      obtain ⟨slug, ty, idd⟩ := trip
      obtain ⟨⟨hps, hpl, hpa⟩, hpc⟩ :=
        paginate_props cfg ext slug ty idd (cfg.maxCredits + 1) 1 [] 0 st
      have hpbt := hpc.2.2
      rcases hpg : paginate cfg ext slug ty idd (cfg.maxCredits + 1) 1 [] 0 st with
        ⟨r, st1, evs1⟩
      rw [hpg] at hps hpl hpa hpc hpbt
      dsimp only at hps hpl hpa
      cases r with
      | ok newLinks =>
          have hnh1 : ∀ u, Ev.blockHit u ∉ evs1 :=
            no_hit_of_blockTail hpbt (by simp)
          simp only [runCategory, getBrandProductLinks, hm, hpg]
          split
          · exact ⟨stInv_of_pure hps hpl, ctlInv_ok rfl hnh1⟩
          · obtain ⟨hslv, hslc⟩ := scrapeLoop_props cfg ext cat.name newLinks 0 st1
            have hslbt := hslc.2.2
            rcases hsl : scrapeLoop cfg ext cat.name newLinks 0 st1 with ⟨r2, st2, evs2⟩
            rw [hsl] at hslv hslc hslbt
            cases r2 with
            | ok a2 =>
                obtain ⟨hA, hB, hC⟩ := stInv_base hslv hps
                dsimp only at hA hB hC
                have hnh2 : ∀ u, Ev.blockHit u ∉ evs2 :=
                  no_hit_of_blockTail hslbt (by simp)
                show StInv st (mapEvs (evs1 ++ evs2) (saveSeenProducts ext st2)) ∧
                  CtlInv (mapEvs (evs1 ++ evs2) (saveSeenProducts ext st2))
                refine ⟨stInv_glue ?_ hB hC (stInv_of_pure rfl (fun s => rfl)),
                  ctlInv_mapEvs (no_hit_append hnh1 hnh2)
                    (ctlInv_ok rfl (by simp [saveSeenProducts]))⟩
                rw [ledgerAfter_append, hpl]
                exact hA
            | thrown m2 =>
                simp only [handleCat]
                split
                · rename_i hcond
                  show StInv st (mapEvs evs1 (⟨Res.thrown m2, st2, evs2⟩ : Out Unit)) ∧
                    CtlInv (mapEvs evs1 (⟨Res.thrown m2, st2, evs2⟩ : Out Unit))
                  refine ⟨stInv_glue ?_ (fun pid e he => by rw [← hps] at he; exact he)
                      (fun pid e he => Or.inl (by rw [← hps]; exact he)) hslv,
                    ctlInv_mapEvs hnh1 ⟨?_, ?_, hslbt⟩⟩
                  · rw [hpl, hps]
                  · intro cd h
                    cases h
                  · intro m3 h
                    injection h with he
                    rw [← he]
                    exact hcond
                · rename_i hcond
                  have hm2 : ∀ u, Ev.blockHit u ∉ evs2 := by
                    refine no_hit_of_blockTail hslbt ?_
                    intro hmb
                    have he : m2 = blockMsg := by injection hmb
                    rw [he] at hcond
                    exact hcond blockMsg_marked
                  show StInv st (mapEvs evs1 (⟨Res.ok (), st2, evs2⟩ : Out Unit)) ∧
                    CtlInv (mapEvs evs1 (⟨Res.ok (), st2, evs2⟩ : Out Unit))
                  refine ⟨stInv_glue ?_ (fun pid e he => by rw [← hps] at he; exact he)
                      (fun pid e he => Or.inl (by rw [← hps]; exact he))
                      (stInv_cast hslv rfl),
                    ctlInv_mapEvs hnh1 (ctlInv_ok rfl hm2)⟩
                  rw [hpl, hps]
            | exited cd =>
                have hcd : cd = 0 := hslc.1 cd rfl
                subst hcd
                have hnh2 : ∀ u, Ev.blockHit u ∉ evs2 :=
                  no_hit_of_blockTail hslbt (by simp)
                show StInv st (mapEvs evs1 (⟨Res.exited 0, st2, evs2⟩ : Out Unit)) ∧
                  CtlInv (mapEvs evs1 (⟨Res.exited 0, st2, evs2⟩ : Out Unit))
                refine ⟨stInv_glue ?_ (fun pid e he => by rw [← hps] at he; exact he)
                    (fun pid e he => Or.inl (by rw [← hps]; exact he))
                    (stInv_cast hslv rfl),
                  ctlInv_mapEvs hnh1 (ctlInv_exit0 rfl hnh2)⟩
                rw [hpl, hps]
            | spun =>
                have hnh2 : ∀ u, Ev.blockHit u ∉ evs2 :=
                  no_hit_of_blockTail hslbt (by simp)
                show StInv st (mapEvs evs1 (⟨Res.spun, st2, evs2⟩ : Out Unit)) ∧
                  CtlInv (mapEvs evs1 (⟨Res.spun, st2, evs2⟩ : Out Unit))
                refine ⟨stInv_glue ?_ (fun pid e he => by rw [← hps] at he; exact he)
                    (fun pid e he => Or.inl (by rw [← hps]; exact he))
                    (stInv_cast hslv rfl),
                  ctlInv_mapEvs hnh1 (ctlInv_spun rfl hnh2)⟩
                rw [hpl, hps]
      | thrown m =>
          simp only [runCategory, getBrandProductLinks, hm, hpg, handleCat]
          split
          · rename_i hcond
            refine ⟨stInv_of_pure hps hpl, ?_, ?_, blockTail_retype hpbt rfl⟩
            · intro cd h
              cases h
            · intro m3 h
              injection h with he
              rw [← he]
              exact hcond
          · rename_i hcond
            have hnh1 : ∀ u, Ev.blockHit u ∉ evs1 := by
              refine no_hit_of_blockTail hpbt ?_
              intro hmb
              have he : m = blockMsg := by injection hmb
              rw [he] at hcond
              exact hcond blockMsg_marked
            exact ⟨stInv_of_pure hps hpl, ctlInv_ok rfl hnh1⟩
      | exited cd =>
          have hcd : cd = 0 := hpc.1 cd rfl
          subst hcd
          have hnh1 : ∀ u, Ev.blockHit u ∉ evs1 :=
            no_hit_of_blockTail hpbt (by simp)
          simp only [runCategory, getBrandProductLinks, hm, hpg]
          exact ⟨stInv_of_pure hps hpl, ctlInv_exit0 rfl hnh1⟩
      | spun =>
          have hnh1 : ∀ u, Ev.blockHit u ∉ evs1 :=
            no_hit_of_blockTail hpbt (by simp)
          simp only [runCategory, getBrandProductLinks, hm, hpg]
          exact ⟨stInv_of_pure hps hpl, ctlInv_spun rfl hnh1⟩

theorem no_hit_catStart (name : String) :
    ∀ u, Ev.blockHit u ∉ [Ev.catStart name] := by
  intro u
  simp

theorem runCats_props (cfg : Config) (ext : Extern) :
    ∀ cats st, StInv st (runCats cfg ext cats st) ∧
      CtlInv (runCats cfg ext cats st) := by
  intro cats
  induction cats with
  | nil =>
      intro st
      exact ⟨stInv_of_pure rfl (fun s => rfl), ctlInv_ok rfl (by simp [runCats])⟩
  | cons cat rest ih =>
      intro st
      obtain ⟨hcv, hcc⟩ := runCategory_props cfg ext cat st
      have hcbt := hcc.2.2
      rcases hrc : runCategory cfg ext cat st with ⟨r, st1, evs1⟩
      rw [hrc] at hcv hcc hcbt
      obtain ⟨hA, hB, hC⟩ := hcv
      dsimp only at hA hB hC
      cases r with
      | ok a =>
          have hnh1 : ∀ u, Ev.blockHit u ∉ evs1 :=
            no_hit_of_blockTail hcbt (by simp)
          simp only [runCats, hrc]
          show StInv st (mapEvs [Ev.catStart cat.name]
              (mapEvs evs1 (runCats cfg ext rest st1))) ∧
            CtlInv (mapEvs [Ev.catStart cat.name]
              (mapEvs evs1 (runCats cfg ext rest st1)))
          refine ⟨stInv_glue rfl (fun pid e he => he) (fun pid e he => Or.inl he)
              (stInv_glue hA hB hC (ih st1).1),
            ctlInv_mapEvs (no_hit_catStart cat.name)
              (ctlInv_mapEvs hnh1 (ih st1).2)⟩
      | thrown m =>
          simp only [runCats, hrc]
          show StInv st (mapEvs [Ev.catStart cat.name]
              (⟨Res.thrown m, st1, evs1⟩ : Out Unit)) ∧
            CtlInv (mapEvs [Ev.catStart cat.name]
              (⟨Res.thrown m, st1, evs1⟩ : Out Unit))
          exact ⟨stInv_glue rfl (fun pid e he => he) (fun pid e he => Or.inl he)
              ⟨hA, hB, hC⟩,
            ctlInv_mapEvs (no_hit_catStart cat.name) hcc⟩
      | exited cd =>
          simp only [runCats, hrc]
          show StInv st (mapEvs [Ev.catStart cat.name]
              (⟨Res.exited cd, st1, evs1⟩ : Out Unit)) ∧
            CtlInv (mapEvs [Ev.catStart cat.name]
              (⟨Res.exited cd, st1, evs1⟩ : Out Unit))
          exact ⟨stInv_glue rfl (fun pid e he => he) (fun pid e he => Or.inl he)
              ⟨hA, hB, hC⟩,
            ctlInv_mapEvs (no_hit_catStart cat.name) hcc⟩
      | spun =>
          simp only [runCats, hrc]
          show StInv st (mapEvs [Ev.catStart cat.name]
              (⟨Res.spun, st1, evs1⟩ : Out Unit)) ∧
            CtlInv (mapEvs [Ev.catStart cat.name]
              (⟨Res.spun, st1, evs1⟩ : Out Unit))
          exact ⟨stInv_glue rfl (fun pid e he => he) (fun pid e he => Or.inl he)
              ⟨hA, hB, hC⟩,
            ctlInv_mapEvs (no_hit_catStart cat.name) hcc⟩

theorem runScraper_stInv (cfg : Config) (ext : Extern) (cats : List BrandCat)
    (init : Ledger) :
    StInv { credits := 0, seen := init, disk := init, flushes := 0, time := 0,
            scraped := [] }
      (runIncrementalScraper cfg ext cats init) := by
  obtain ⟨hv, -⟩ := runCats_props cfg ext cats
    { credits := 0, seen := init, disk := init, flushes := 0, time := 0,
      scraped := [] }
  rcases hrc : runCats cfg ext cats
      { credits := 0, seen := init, disk := init, flushes := 0, time := 0,
        scraped := [] } with ⟨r, st1, evs1⟩
  rw [hrc] at hv
  obtain ⟨hA, hB, hC⟩ := hv
  dsimp only at hA hB hC
  cases r with
  | ok a =>
      simp only [runIncrementalScraper, hrc]
      exact ⟨hA, hB, hC⟩
  | thrown m =>
      simp only [runIncrementalScraper, hrc]
      show StInv _ (mapEvs evs1
        (⟨Res.exited 1, (saveSeenProducts ext st1).st,
          (saveSeenProducts ext st1).evs⟩ : Out Unit))
      exact stInv_glue hA hB hC (stInv_of_pure rfl (fun s => rfl))
  | exited cd =>
      simp only [runIncrementalScraper, hrc]
      exact ⟨hA, hB, hC⟩
  | spun =>
      simp only [runIncrementalScraper, hrc]
      exact ⟨hA, hB, hC⟩

/-! Claim C1. -/

/-- C1 counterexample: with the ceiling at 2 and the source still serving
pages, the run halts at the ceiling with exit status 0 (not the fatal status
1 the claim requires) and no ledger flush is performed. -/
theorem C1_counterexample :
    (runIncrementalScraper cfg2 extC1 [catA] []).res = Res.exited 0 ∧
    (runIncrementalScraper cfg2 extC1 [catA] []).res ≠ Res.exited 1 ∧
    hasFlush (runIncrementalScraper cfg2 extC1 [catA] []).evs = false ∧
    fetchCount (runIncrementalScraper cfg2 extC1 [catA] []).evs =
      cfg2.maxCredits := by
  refine ⟨?_, ?_, ?_, ?_⟩ <;> decide

/-- C1 amended: when the incremented credit counter reaches the ceiling,
`fetchWithScraperAPI` halts the run immediately with exit status 0 — not 1 —
without flushing any state and without consulting the transport (the outcome
is the same for any network oracle); a process halt escaping the category
loop always carries code 0. -/
theorem C1_budget_exit (cfg : Config) (ext ext2 : Extern) (st : St)
    (url : String) (cats : List BrandCat) (st2 : St) (cd : Nat)
    (h : cfg.maxCredits ≤ st.credits + 1)
    (h2 : (runCats cfg ext cats st2).res = Res.exited cd) :
    fetchWithScraperAPI cfg ext st url =
      { res := .exited 0, st := { st with credits := st.credits + 1 },
        evs := [.fetch url] } ∧
    fetchWithScraperAPI cfg ext st url = fetchWithScraperAPI cfg ext2 st url ∧
    hasFlush (fetchWithScraperAPI cfg ext st url).evs = false ∧
    cd = 0 := by
  have he : ∀ ext3 : Extern, fetchWithScraperAPI cfg ext3 st url =
      { res := .exited 0, st := { st with credits := st.credits + 1 },
        evs := [.fetch url] } := by
    intro ext3
    unfold fetchWithScraperAPI
    simp [h]
  refine ⟨he ext, by rw [he ext, he ext2], by rw [he ext]; rfl, ?_⟩
  exact (runCats_props cfg ext cats st2).2.1 cd h2

/-- C1 witness: the amended statement holds at a concrete state already at
the ceiling, and at the concrete budget-exhausted run. -/
theorem C1_budget_exit_witness :
    cfg2.maxCredits ≤ (⟨5, [], [], 0, 0, []⟩ : St).credits + 1 ∧
    (runCats cfg2 extC1 [catA]
      { credits := 0, seen := [], disk := [], flushes := 0, time := 0,
        scraped := [] }).res = Res.exited 0 ∧
    (fetchWithScraperAPI cfg2 extC1 (⟨5, [], [], 0, 0, []⟩ : St) "u" =
      { res := .exited 0, st := (⟨6, [], [], 0, 0, []⟩ : St),
        evs := [.fetch "u"] } ∧
     fetchWithScraperAPI cfg2 extC1 (⟨5, [], [], 0, 0, []⟩ : St) "u" =
       fetchWithScraperAPI cfg2 extC2 (⟨5, [], [], 0, 0, []⟩ : St) "u" ∧
     hasFlush (fetchWithScraperAPI cfg2 extC1
       (⟨5, [], [], 0, 0, []⟩ : St) "u").evs = false ∧
     (0 : Nat) = 0) :=
  ⟨by decide, by decide,
   C1_budget_exit cfg2 extC1 extC2 (⟨5, [], [], 0, 0, []⟩ : St) "u" [catA]
     { credits := 0, seen := [], disk := [], flushes := 0, time := 0,
       scraped := [] } 0 (by decide) (by decide)⟩

/-! Claim C4. -/

/-- C4 counterexample: a run whose only category yields an empty listing
completes cleanly without ever flushing the ledger, so the ledger is not
flushed after every category. -/
theorem C4_counterexample :
    (runIncrementalScraper cfg50 extC4 [catA] []).res = Res.ok () ∧
    (runIncrementalScraper cfg50 extC4 [catA] []).evs =
      [Ev.catStart "apple", Ev.fetch (pApple 1)] ∧
    hasFlush (runIncrementalScraper cfg50 extC4 [catA] []).evs = false := by
  refine ⟨?_, ?_, ?_⟩ <;> decide

/-- C4 amended: a category body that returns normally either ends with a
flush of the then-current in-memory mapping (the path that processed at
least one new reference), or leaves the in-memory mapping exactly as it was
when the category began (the zero-new-links `continue` path and the
recoverable-failure path, on which no flush is performed). -/
theorem C4_flush_or_unchanged (cfg : Config) (ext : Extern) (cat : BrandCat)
    (st : St) (h : (runCategory cfg ext cat st).res = Res.ok ()) :
    (∃ l b, (runCategory cfg ext cat st).evs =
        l ++ [Ev.flush (runCategory cfg ext cat st).st.seen b]) ∨
    (runCategory cfg ext cat st).st.seen = st.seen := by
  cases hm : matchBrandUrl cat.url with
  | none =>
      simp only [runCategory, getBrandProductLinks, hm, handleCat]
      split
      · simp only [runCategory, getBrandProductLinks, hm, handleCat] at h
        split at h
        · cases h
        · exact Or.inr rfl
      · exact Or.inr rfl
  | some trip =>
      obtain ⟨slug, ty, idd⟩ := trip
      obtain ⟨⟨hps, hpl, hpa⟩, hpc⟩ :=
        paginate_props cfg ext slug ty idd (cfg.maxCredits + 1) 1 [] 0 st
      rcases hpg : paginate cfg ext slug ty idd (cfg.maxCredits + 1) 1 [] 0 st with
        ⟨r, st1, evs1⟩
      rw [hpg] at hps hpl hpa hpc
      dsimp only at hps hpl hpa
      cases r with
      | ok newLinks =>
          simp only [runCategory, getBrandProductLinks, hm, hpg] at h ⊢
          by_cases hne : newLinks.isEmpty = true
          · rw [if_pos hne] at h ⊢
            exact Or.inr hps
          · rw [if_neg hne] at h ⊢
            obtain ⟨hslv, hslc⟩ := scrapeLoop_props cfg ext cat.name newLinks 0 st1
            rcases hsl : scrapeLoop cfg ext cat.name newLinks 0 st1 with
              ⟨r2, st2, evs2⟩
            rw [hsl] at hslv hslc
            cases r2 with
            | ok a2 =>
                simp only [hsl] at h ⊢
                exact Or.inl ⟨evs1 ++ evs2, ext.writeOk st2.flushes, rfl⟩
            | thrown m2 =>
                have hmk := hslc.2.1 m2 rfl
                simp only [hsl, handleCat] at h ⊢
                split at h
                · cases h
                · rename_i hcond
                  exact absurd hmk hcond
            | exited cd =>
                simp only [hsl] at h
                cases h
            | spun =>
                simp only [hsl] at h
                cases h
      | thrown m =>
          simp only [runCategory, getBrandProductLinks, hm, hpg, handleCat] at h ⊢
          split at h <;> split
          · cases h
          · cases h
          · rename_i hc1 hc2
            exact absurd hc2 hc1
          · exact Or.inr hps
      | exited cd =>
          simp only [runCategory, getBrandProductLinks, hm, hpg] at h
          cases h
      | spun =>
          simp only [runCategory, getBrandProductLinks, hm, hpg] at h
          cases h

/-- C4 witness: the empty-listing category returns normally and takes the
unchanged-mapping branch of the amended statement. -/
theorem C4_flush_or_unchanged_witness :
    (runCategory cfg50 extC4 catA
      { credits := 0, seen := [], disk := [], flushes := 0, time := 0,
        scraped := [] }).res = Res.ok () ∧
    ((∃ l b, (runCategory cfg50 extC4 catA
        { credits := 0, seen := [], disk := [], flushes := 0, time := 0,
          scraped := [] }).evs =
        l ++ [Ev.flush (runCategory cfg50 extC4 catA
          { credits := 0, seen := [], disk := [], flushes := 0, time := 0,
            scraped := [] }).st.seen b]) ∨
     (runCategory cfg50 extC4 catA
        { credits := 0, seen := [], disk := [], flushes := 0, time := 0,
          scraped := [] }).st.seen =
       ({ credits := 0, seen := [], disk := [], flushes := 0, time := 0,
          scraped := [] } : St).seen) :=
  ⟨by decide,
   C4_flush_or_unchanged cfg50 extC4 catA
     { credits := 0, seen := [], disk := [], flushes := 0, time := 0,
       scraped := [] } (by decide)⟩

/-! Claim C2. -/

/-- C2: a fetch whose response body contains a block-indicator phrase (the
`blockHit` event) makes the Block error propagate uncaught past the per-item
and per-category boundaries: the run exits with fatal status 1, no further
fetch is charged after the blocking one, and the only remaining action is a
single ledger flush whose content is the initial mapping plus exactly the
items accepted strictly before the blocking fetch. -/
theorem C2_block_propagation (cfg : Config) (ext : Extern) (cats : List BrandCat)
    (init : Ledger) (pre post : List Ev) (u : String)
    (h : (runIncrementalScraper cfg ext cats init).evs = pre ++ Ev.blockHit u :: post) :
    (runIncrementalScraper cfg ext cats init).res = Res.exited 1 ∧
    (∀ v, Ev.fetch v ∉ post) ∧
    ∃ b, post = [Ev.flush (ledgerAfter init pre) b] := by
  obtain ⟨hv, hc⟩ := runCats_props cfg ext cats
    { credits := 0, seen := init, disk := init, flushes := 0, time := 0,
      scraped := [] }
  have hbt := hc.2.2
  rcases hrc : runCats cfg ext cats
      { credits := 0, seen := init, disk := init, flushes := 0, time := 0,
        scraped := [] } with ⟨r, st1, evs1⟩
  rw [hrc] at hv hc hbt
  obtain ⟨hA, -, -⟩ := hv
  dsimp only at hA
  cases r with
  | ok a =>
      simp only [runIncrementalScraper, hrc] at h
      exact absurd (by rw [h]; exact List.mem_append_right _ (List.mem_cons_self _ _))
        (no_hit_of_blockTail hbt (by simp) u)
  | thrown m =>
      simp only [runIncrementalScraper, hrc, saveSeenProducts] at h
      obtain ⟨mid, hpost, hevs1⟩ := append_single_split h (by simp)
      obtain ⟨hmid, -⟩ := hbt pre u mid hevs1
      subst hmid
      have hseen : st1.seen = ledgerAfter init pre := by
        rw [hA, hevs1, ledgerAfter_append]
        rfl
      refine ⟨?_, ?_, ⟨ext.writeOk st1.flushes, ?_⟩⟩
      · simp only [runIncrementalScraper, hrc]
      · intro v hv2
        rw [hpost] at hv2
        simp at hv2
      · rw [hpost, hseen]
        rfl
  | exited cd =>
      simp only [runIncrementalScraper, hrc] at h
      exact absurd (by rw [h]; exact List.mem_append_right _ (List.mem_cons_self _ _))
        (no_hit_of_blockTail hbt (by simp) u)
  | spun =>
      simp only [runIncrementalScraper, hrc] at h
      exact absurd (by rw [h]; exact List.mem_append_right _ (List.mem_cons_self _ _))
        (no_hit_of_blockTail hbt (by simp) u)

/-- C2 witness: a concrete blocked run (page 1 of the test category answers
with a captcha page) satisfies the hypothesis and all three conclusions. -/
theorem C2_block_propagation_witness :
    (runIncrementalScraper cfg50 extC2 [catA] []).res = Res.exited 1 ∧
    (∀ v, Ev.fetch v ∉ [Ev.flush (ledgerAfter [] [Ev.catStart "apple", Ev.fetch (pApple 1)]) true]) ∧
    ∃ b, [Ev.flush (ledgerAfter [] [Ev.catStart "apple", Ev.fetch (pApple 1)]) true] =
      [Ev.flush (ledgerAfter [] [Ev.catStart "apple", Ev.fetch (pApple 1)]) b] :=
  C2_block_propagation cfg50 extC2 [catA] []
    [Ev.catStart "apple", Ev.fetch (pApple 1)]
    [Ev.flush (ledgerAfter [] [Ev.catStart "apple", Ev.fetch (pApple 1)]) true]
    (pApple 1) (by decide)

/-! Claim C8. -/

/-- C8 counterexample: a malformed listing URL in the first category does
not halt the run — the next category is fetched afterwards and the run
completes cleanly. -/
theorem C8_counterexample :
    (runIncrementalScraper cfg50 extC4 [⟨"bad", "nourl", "phones"⟩, catA] []).res =
      Res.ok () ∧
    (runIncrementalScraper cfg50 extC4 [⟨"bad", "nourl", "phones"⟩, catA] []).evs =
      [Ev.catStart "bad", Ev.catStart "apple", Ev.fetch (pApple 1)] ∧
    matchBrandUrl "nourl" = none := by
  refine ⟨?_, ?_, ?_⟩ <;> decide

/-- C8 amended: a category whose listing URL does not match the canonical
pattern throws `Invalid brand URL` before any fetch; the error is caught at
the category boundary (as long as the URL text itself does not contain the
block marker) and the run continues with the remaining categories exactly as
if the bad category were skipped, with only its header logged. -/
theorem C8_malformed_recoverable (cfg : Config) (ext : Extern)
    (name url k : String) (rest : List BrandCat) (st : St)
    (h1 : matchBrandUrl url = none)
    (h2 : containsSub ("Invalid brand URL: " ++ url) "BLOCK_DETECTED" = false) :
    runCats cfg ext (⟨name, url, k⟩ :: rest) st =
      mapEvs [Ev.catStart name] (runCats cfg ext rest st) := by
  have hcat : runCategory cfg ext ⟨name, url, k⟩ st =
      { res := Res.ok (), st := st, evs := [] } := by
    simp only [runCategory, getBrandProductLinks, h1, handleCat, h2]
    exact if_neg (by simp)
  simp only [runCats, hcat]

/-- C8 witness: the amended statement holds at the concrete malformed URL
"nourl" followed by the test category. -/
theorem C8_malformed_recoverable_witness :
    matchBrandUrl "nourl" = none ∧
    containsSub ("Invalid brand URL: " ++ "nourl") "BLOCK_DETECTED" = false ∧
    runCats cfg50 extC4 (⟨"bad", "nourl", "phones"⟩ :: [catA])
      { credits := 0, seen := [], disk := [], flushes := 0, time := 0,
        scraped := [] } =
      mapEvs [Ev.catStart "bad"] (runCats cfg50 extC4 [catA]
        { credits := 0, seen := [], disk := [], flushes := 0, time := 0,
          scraped := [] }) :=
  ⟨by decide, by decide,
   C8_malformed_recoverable cfg50 extC4 "bad" "nourl" "phones" [catA]
     { credits := 0, seen := [], disk := [], flushes := 0, time := 0,
       scraped := [] } (by decide) (by decide)⟩

/-! Claim C10. -/

/-- C10: the ledger flush never raises — it always returns normally, leaves
the in-memory mapping untouched, and on a failed write leaves the on-disk
mapping as it was; consequently a whole run can finish with success status
while the on-disk ledger is stale, as the concrete run with every write
failing shows. -/
theorem C10_flush_never_raises (ext : Extern) (st : St) :
    (saveSeenProducts ext st).res = Res.ok () ∧
    (saveSeenProducts ext st).st.seen = st.seen ∧
    (ext.writeOk st.flushes = false → (saveSeenProducts ext st).st.disk = st.disk) ∧
    ((runIncrementalScraper cfg50 extC10 [catA] []).res = Res.ok () ∧
     (runIncrementalScraper cfg50 extC10 [catA] []).st.disk ≠
       (runIncrementalScraper cfg50 extC10 [catA] []).st.seen) := by
  obtain ⟨s1, s2, -, s4, -⟩ := saveSeen_shape ext st
  exact ⟨s1, s2, s4, by decide, by decide⟩

/-- C10 witness: at the failing-write oracle and a state with one recorded
product, the flush returns normally, keeps the in-memory mapping, and leaves
the stale disk file untouched. -/
theorem C10_flush_never_raises_witness :
    extC10.writeOk (0 : Nat) = false ∧
    ((saveSeenProducts extC10 (⟨3, seen9, [], 0, 0, []⟩ : St)).res = Res.ok () ∧
     (saveSeenProducts extC10 (⟨3, seen9, [], 0, 0, []⟩ : St)).st.seen = seen9 ∧
     (saveSeenProducts extC10 (⟨3, seen9, [], 0, 0, []⟩ : St)).st.disk = []) :=
  ⟨by decide,
   (C10_flush_never_raises extC10 (⟨3, seen9, [], 0, 0, []⟩ : St)).1,
   (C10_flush_never_raises extC10 (⟨3, seen9, [], 0, 0, []⟩ : St)).2.1,
   (C10_flush_never_raises extC10 (⟨3, seen9, [], 0, 0, []⟩ : St)).2.2.1 (by decide)⟩

/-! Claim C5. -/

/-- C5 counterexample: the entry the concrete run writes to the persisted
ledger file for product 1 has exactly the fields id, name and scrapedAt — it
contains neither category nor launchYear. -/
theorem C5_counterexample :
    lookupA (runIncrementalScraper cfg50 extC3 [catA] []).st.disk "1" =
      some (mkSeenEntry "1" "Acme One" "T") ∧
    fieldsOf (mkSeenEntry "1" "Acme One" "T") = ["id", "name", "scrapedAt"] ∧
    (fieldsOf (mkSeenEntry "1" "Acme One" "T")).contains "category" = false ∧
    (fieldsOf (mkSeenEntry "1" "Acme One" "T")).contains "launchYear" = false := by
  refine ⟨?_, ?_, ?_, ?_⟩ <;> decide

/-- C5 amended: entries written by the scraper carry exactly the fields id,
name and scrapedAt; the six-field shape id, name, brand, category,
launchYear, scrapedAt is produced only by the separate rebuild script; and
every entry of the final in-memory mapping of a run either was already in
the loaded mapping or is a scraper-shaped three-field entry keyed by its own
id. -/
theorem C5_entry_fields (cfg : Config) (ext : Extern) (cats : List BrandCat)
    (init : Ledger) (pidX nX tX : String) (p : Product) (pid2 : String)
    (e : EntryObj)
    (h : lookupA (runIncrementalScraper cfg ext cats init).st.seen pid2 = some e) :
    fieldsOf (mkSeenEntry pidX nX tX) = ["id", "name", "scrapedAt"] ∧
    fieldsOf (rebuildEntry p pidX) =
      ["id", "name", "brand", "category", "launchYear", "scrapedAt"] ∧
    (lookupA init pid2 = some e ∨ ∃ n2 t2, e = mkSeenEntry pid2 n2 t2) := by
  refine ⟨rfl, rfl, ?_⟩
  exact (runScraper_stInv cfg ext cats init).2.2 pid2 e h

/-- C5 witness: the amended statement applied to the one-product run, whose
recorded entry is the three-field scraper shape. -/
theorem C5_entry_fields_witness :
    lookupA (runIncrementalScraper cfg50 extC3 [catA] []).st.seen "1" =
      some (mkSeenEntry "1" "Acme One" "T") ∧
    (fieldsOf (mkSeenEntry "x" "y" "z") = ["id", "name", "scrapedAt"] ∧
     fieldsOf (rebuildEntry
        { id := some "x", name := "y", brand := "b", category := "phone",
          launchYear := 2024, image := none, url := "u", specs := [],
          scrapedAt := "z" } "x") =
       ["id", "name", "brand", "category", "launchYear", "scrapedAt"] ∧
     (lookupA [] "1" = some (mkSeenEntry "1" "Acme One" "T") ∨
      ∃ n2 t2, mkSeenEntry "1" "Acme One" "T" = mkSeenEntry "1" n2 t2)) :=
  ⟨by decide,
   C5_entry_fields cfg50 extC3 [catA] [] "x" "y" "z"
     { id := some "x", name := "y", brand := "b", category := "phone",
       launchYear := 2024, image := none, url := "u", specs := [],
       scrapedAt := "z" } "1" (mkSeenEntry "1" "Acme One" "T") (by decide)⟩

/-! Claim C9. -/

/-- C9: the in-memory mapping is append-only — every entry of the loaded
mapping survives the whole run unchanged; a null item result (already seen,
out of scope, or a caught failure) leaves the mapping untouched; and any
single item step either leaves the mapping unchanged or inserts, under a
fresh id, the scraper entry of a product that was fetched, parsed, and
passed the minimum-year validity filter. -/
theorem C9_append_only (cfg : Config) (ext : Extern) (cats : List BrandCat)
    (init : Ledger) (st : St) (url brand : String) (pid0 : String) (e : EntryObj)
    (hmem : lookupA init pid0 = some e)
    (hnull : (scrapeProduct cfg ext st url brand).res = Res.ok none) :
    lookupA (runIncrementalScraper cfg ext cats init).st.seen pid0 = some e ∧
    (scrapeProduct cfg ext st url brand).st.seen = st.seen ∧
    ((scrapeProduct cfg ext st url brand).st.seen = st.seen ∨
     ∃ pid p, extractProductId url = some pid ∧
       lookupA st.seen pid = none ∧
       (scrapeProduct cfg ext st url brand).res = Res.ok (some p) ∧
       cfg.minLaunchYear ≤ p.launchYear ∧
       (scrapeProduct cfg ext st url brand).st.seen =
         setA st.seen pid (mkSeenEntry pid p.name p.scrapedAt)) := by
  refine ⟨(runScraper_stInv cfg ext cats init).2.1 pid0 e hmem, ?_, ?_⟩
  · rcases scrapeProduct_cases cfg ext st url brand with
      ⟨h1, -, -, -, -⟩ | ⟨pid, p, -, -, hr, -, -, -, -⟩
    · exact h1
    · rw [hnull] at hr
      simp at hr
  · rcases scrapeProduct_cases cfg ext st url brand with
      ⟨h1, -, -, -, -⟩ | ⟨pid, p, h1, h2, h3, h4, h5, -, -⟩
    · exact Or.inl h1
    · exact Or.inr ⟨pid, p, h1, h2, h3, h4, h5⟩

/-- C9 witness: the loaded entry for product 9 survives the run, and a
concrete failing item step leaves the mapping unchanged. -/
theorem C9_append_only_witness :
    lookupA seen9 "9" = some (mkSeenEntry "9" "N" "T") ∧
    (scrapeProduct cfg50 extC6
      (⟨0, [], [], 0, 0, []⟩ : St) (BASE ++ "/a-1.php") "apple").res =
      Res.ok none ∧
    lookupA (runIncrementalScraper cfg50 extC7 [catA] seen9).st.seen "9" =
      some (mkSeenEntry "9" "N" "T") ∧
    (scrapeProduct cfg50 extC6
      (⟨0, [], [], 0, 0, []⟩ : St) (BASE ++ "/a-1.php") "apple").st.seen = [] :=
  ⟨by decide, by decide,
   (C9_append_only cfg50 extC7 [catA] seen9 (⟨0, [], [], 0, 0, []⟩ : St)
     (BASE ++ "/a-1.php") "apple" "9" (mkSeenEntry "9" "N" "T")
     (by decide) (by decide)).1,
   (C9_append_only cfg50 extC6 [catA] seen9 (⟨0, [], [], 0, 0, []⟩ : St)
     (BASE ++ "/a-1.php") "apple" "9" (mkSeenEntry "9" "N" "T")
     (by decide) (by decide)).2.1⟩

/-! Fetch-count bounds for saturated pagination. -/

theorem fetchCount_fetch_mapEvs {α : Type} (u : String) (o : Out α) :
    fetchCount (mapEvs [Ev.fetch u] o).evs = 1 + fetchCount o.evs := by
  show fetchCount ([Ev.fetch u] ++ o.evs) = 1 + fetchCount o.evs
  rw [fetchCount_append]
  rfl

theorem paginate_saturated (cfg : Config) (ext : Extern) (slug ty idd : String)
    (k : Nat) :
    ∀ fuel page acc c st, k ≤ page → c ≤ 2 →
      (∀ n, k ≤ n → NoNew ext st.seen slug ty idd n) →
      fetchCount (paginate cfg ext slug ty idd fuel page acc c st).evs ≤ 3 - c ∧
      (∀ l, (paginate cfg ext slug ty idd fuel page acc c st).res = Res.ok l →
        l = acc) := by
  intro fuel
  induction fuel with
  | zero =>
      intro page acc c st hk hc hN
      exact ⟨Nat.zero_le _, fun l hl => by cases hl⟩
  | succ fuel ih =>
      intro page acc c st hk hc hN
      rcases fetch_cases cfg ext st (pageUrl slug ty idd page) with
        ⟨b, hn, hb, h⟩ | h | ⟨m, h⟩ | ⟨hcred, h⟩ <;> simp only [paginate, h]
      · have hfe : (parseBrandListing ext.select b).filter
            (fun link => !(lookupA ({ st with credits := st.credits + 1 } : St).seen
              link.id).isSome) = [] :=
          hN page hk b hn
        simp only [hfe]
        split
        · refine ⟨?_, fun l hl => by injection hl with he; exact he.symm⟩
          show (1 : Nat) ≤ 3 - c
          omega
        · split
          · split
            · refine ⟨?_, fun l hl => ?_⟩
              · show (1 : Nat) ≤ 3 - c
                omega
              · injection hl with he
                rw [← he, List.append_nil]
            · rename_i hc3
              have hc2 : c + 1 ≤ 2 := by omega
              obtain ⟨ihc, ihr⟩ := ih (page + 1) (acc ++ []) (c + 1)
                { st with credits := st.credits + 1 }
                (by omega) hc2 hN
              refine ⟨?_, fun l hl => ?_⟩
              · rw [fetchCount_fetch_mapEvs]
                omega
              · rw [ihr l hl, List.append_nil]
          · rename_i hne
            exact absurd rfl hne
      · split
        · refine ⟨?_, fun l hl => by cases hl⟩
          show (1 : Nat) ≤ 3 - c
          omega
        · refine ⟨?_, fun l hl => by injection hl with he; exact he.symm⟩
          show (1 : Nat) ≤ 3 - c
          omega
      · split
        · refine ⟨?_, fun l hl => by cases hl⟩
          show (1 : Nat) ≤ 3 - c
          omega
        · refine ⟨?_, fun l hl => by injection hl with he; exact he.symm⟩
          show (1 : Nat) ≤ 3 - c
          omega
      · refine ⟨?_, fun l hl => by cases hl⟩
        show (1 : Nat) ≤ 3 - c
        omega

theorem allSeen_noNew (ext : Extern) (seen : Ledger) (slug ty idd : String)
    (hAS : AllSeen ext seen) :
    ∀ n, 0 ≤ n → NoNew ext seen slug ty idd n := by
  intro n hn b hb
  refine List.filter_eq_nil_iff.mpr ?_
  intro link hl
  rw [hAS _ b hb link hl]
  simp

theorem runCategory_allseen (cfg : Config) (ext : Extern) (cat : BrandCat)
    (st : St) (hAS : AllSeen ext st.seen) :
    fetchCount (runCategory cfg ext cat st).evs ≤ 3 ∧
    hasAccept (runCategory cfg ext cat st).evs = false ∧
    (runCategory cfg ext cat st).st.seen = st.seen := by
  cases hm : matchBrandUrl cat.url with
  | none =>
      simp only [runCategory, getBrandProductLinks, hm, handleCat]
      split
      · exact ⟨Nat.zero_le _, rfl, rfl⟩
      · exact ⟨Nat.zero_le _, rfl, rfl⟩
  | some trip =>
      obtain ⟨slug, ty, idd⟩ := trip
      obtain ⟨hsc, hsr⟩ := paginate_saturated cfg ext slug ty idd 0
        (cfg.maxCredits + 1) 1 [] 0 st (Nat.zero_le _) (by omega)
        (allSeen_noNew ext st.seen slug ty idd hAS)
      obtain ⟨⟨hps, hpl, hpa⟩, -⟩ :=
        paginate_props cfg ext slug ty idd (cfg.maxCredits + 1) 1 [] 0 st
      rcases hpg : paginate cfg ext slug ty idd (cfg.maxCredits + 1) 1 [] 0 st with
        ⟨r, st1, evs1⟩
      rw [hpg] at hsc hsr hps hpl hpa
      dsimp only at hps hpl hpa hsc
      cases r with
      | ok newLinks =>
          have hnl : newLinks = [] := hsr newLinks rfl
          subst hnl
          simp only [runCategory, getBrandProductLinks, hm, hpg,
            List.isEmpty_nil, if_true]
          exact ⟨hsc, hpa, hps⟩
      | thrown m =>
          simp only [runCategory, getBrandProductLinks, hm, hpg, handleCat]
          split
          · exact ⟨hsc, hpa, hps⟩
          · exact ⟨hsc, hpa, hps⟩
      | exited cd =>
          simp only [runCategory, getBrandProductLinks, hm, hpg]
          exact ⟨hsc, hpa, hps⟩
      | spun =>
          simp only [runCategory, getBrandProductLinks, hm, hpg]
          exact ⟨hsc, hpa, hps⟩

theorem runCats_allseen (cfg : Config) (ext : Extern) :
    ∀ cats st, AllSeen ext st.seen →
      fetchCount (runCats cfg ext cats st).evs ≤ 3 * cats.length ∧
      hasAccept (runCats cfg ext cats st).evs = false ∧
      (runCats cfg ext cats st).st.seen = st.seen := by
  intro cats
  induction cats with
  | nil =>
      intro st hAS
      exact ⟨Nat.zero_le _, rfl, rfl⟩
  | cons cat rest ih =>
      intro st hAS
      obtain ⟨hc1, ha1, hs1⟩ := runCategory_allseen cfg ext cat st hAS
      rcases hrc : runCategory cfg ext cat st with ⟨r, st1, evs1⟩
      rw [hrc] at hc1 ha1 hs1
      dsimp only at hc1 ha1 hs1
      have hAS1 : AllSeen ext st1.seen := by
        rw [hs1]
        exact hAS
      cases r with
      | ok a =>
          obtain ⟨ihc, iha, ihs⟩ := ih st1 hAS1
          simp only [runCats, hrc]
          refine ⟨?_, ?_, ?_⟩
          · show fetchCount ((Ev.catStart cat.name :: evs1) ++
              (runCats cfg ext rest st1).evs) ≤ 3 * (cat :: rest).length
            rw [fetchCount_append]
            have he1 : fetchCount (Ev.catStart cat.name :: evs1) =
              fetchCount evs1 := rfl
            rw [he1]
            simp only [List.length_cons]
            omega
          · show hasAccept ((Ev.catStart cat.name :: evs1) ++
              (runCats cfg ext rest st1).evs) = false
            rw [hasAccept_append]
            have he1 : hasAccept (Ev.catStart cat.name :: evs1) =
              hasAccept evs1 := rfl
            rw [he1, ha1, iha]
            rfl
          · show (runCats cfg ext rest st1).st.seen = st.seen
            rw [ihs, hs1]
      | thrown m =>
          simp only [runCats, hrc]
          refine ⟨?_, ?_, hs1⟩
          · show fetchCount (Ev.catStart cat.name :: evs1) ≤ 3 * (cat :: rest).length
            have he1 : fetchCount (Ev.catStart cat.name :: evs1) =
              fetchCount evs1 := rfl
            rw [he1]
            simp only [List.length_cons]
            omega
          · show hasAccept (Ev.catStart cat.name :: evs1) = false
            have he1 : hasAccept (Ev.catStart cat.name :: evs1) =
              hasAccept evs1 := rfl
            rw [he1, ha1]
      | exited cd =>
          simp only [runCats, hrc]
          refine ⟨?_, ?_, hs1⟩
          · show fetchCount (Ev.catStart cat.name :: evs1) ≤ 3 * (cat :: rest).length
            have he1 : fetchCount (Ev.catStart cat.name :: evs1) =
              fetchCount evs1 := rfl
            rw [he1]
            simp only [List.length_cons]
            omega
          · show hasAccept (Ev.catStart cat.name :: evs1) = false
            have he1 : hasAccept (Ev.catStart cat.name :: evs1) =
              hasAccept evs1 := rfl
            rw [he1, ha1]
      | spun =>
          simp only [runCats, hrc]
          refine ⟨?_, ?_, hs1⟩
          · show fetchCount (Ev.catStart cat.name :: evs1) ≤ 3 * (cat :: rest).length
            have he1 : fetchCount (Ev.catStart cat.name :: evs1) =
              fetchCount evs1 := rfl
            rw [he1]
            simp only [List.length_cons]
            omega
          · show hasAccept (Ev.catStart cat.name :: evs1) = false
            have he1 : hasAccept (Ev.catStart cat.name :: evs1) =
              hasAccept evs1 := rfl
            rw [he1, ha1]

/-! Claim C3. -/

/-- C3 counterexample: against an unchanged one-product source, the second
run — started from the ledger persisted by the first run — still charges the
pagination fetch of page 2, so the second run is not limited to the first
listing page of the category. -/
theorem C3_counterexample :
    (runIncrementalScraper cfg50 extC3 [catA]
        (runIncrementalScraper cfg50 extC3 [catA] []).st.disk).evs =
      [Ev.catStart "apple", Ev.fetch (pApple 1), Ev.fetch (pApple 2)] ∧
    pApple 2 ≠ pApple 1 ∧
    hasFlush (runIncrementalScraper cfg50 extC3 [catA] []).evs = true := by
  refine ⟨?_, ?_, ?_⟩ <;> decide

/-- C3 amended: a run whose loaded ledger already contains every reference
the source lists charges no item fetch at all (nothing is accepted), but
pagination does continue past the first page: each category charges up to 3
pagination fetches (stopping at an empty page, a fetch error, or 3
consecutive pages without unseen references), so the whole run charges at
most 3 fetches per category. -/
theorem C3_idempotence (cfg : Config) (ext : Extern) (cats : List BrandCat)
    (init : Ledger) (h : AllSeen ext init) :
    fetchCount (runIncrementalScraper cfg ext cats init).evs ≤ 3 * cats.length ∧
    hasAccept (runIncrementalScraper cfg ext cats init).evs = false := by
  obtain ⟨hc1, ha1, -⟩ := runCats_allseen cfg ext cats
    { credits := 0, seen := init, disk := init, flushes := 0, time := 0,
      scraped := [] } h
  rcases hrc : runCats cfg ext cats
      { credits := 0, seen := init, disk := init, flushes := 0, time := 0,
        scraped := [] } with ⟨r, st1, evs1⟩
  rw [hrc] at hc1 ha1
  dsimp only at hc1 ha1
  cases r with
  | ok a =>
      simp only [runIncrementalScraper, hrc]
      exact ⟨hc1, ha1⟩
  | thrown m =>
      simp only [runIncrementalScraper, hrc, saveSeenProducts]
      refine ⟨?_, ?_⟩
      · rw [fetchCount_append]
        have : fetchCount [Ev.flush st1.seen (ext.writeOk st1.flushes)] = 0 := rfl
        rw [this]
        omega
      · rw [hasAccept_append, ha1]
        rfl
  | exited cd =>
      simp only [runIncrementalScraper, hrc]
      exact ⟨hc1, ha1⟩
  | spun =>
      simp only [runIncrementalScraper, hrc]
      exact ⟨hc1, ha1⟩

/-- C3 witness: the amended statement at the saturated concrete source whose
only listed reference is already in the loaded ledger. -/
theorem C3_idempotence_witness :
    fetchCount (runIncrementalScraper cfg50 extC7 [catA] seen9).evs ≤
      3 * [catA].length ∧
    hasAccept (runIncrementalScraper cfg50 extC7 [catA] seen9).evs = false :=
  C3_idempotence cfg50 extC7 [catA] seen9 (by
    intro url b hb link hl
    have hbe : b = "L9" := by injection hb with he; exact he.symm
    subst hbe
    rw [show parseBrandListing extC7.select "L9" =
        [⟨BASE ++ "/x-9.php", "9"⟩] from by decide] at hl
    rw [List.mem_singleton.mp hl]
    decide)

/-! Claim C7. -/

theorem paginate_nonew_bound (cfg : Config) (ext : Extern)
    (slug ty idd : String) :
    ∀ fuel page acc c st, c ≤ 2 →
      (∀ n, 3 ≤ n → NoNew ext st.seen slug ty idd n) →
      fetchCount (paginate cfg ext slug ty idd fuel page acc c st).evs ≤
        (if 3 ≤ page then 3 - c else 6 - page) := by
  intro fuel
  induction fuel with
  | zero =>
      intro page acc c st hc hN
      exact Nat.zero_le _
  | succ fuel ih =>
      intro page acc c st hc hN
      by_cases hp : 3 ≤ page
      · rw [if_pos hp]
        have hone : (1 : Nat) ≤ 3 - c := by omega
        rcases fetch_cases cfg ext st (pageUrl slug ty idd page) with
          ⟨b, hn, hb, h⟩ | h | ⟨m, h⟩ | ⟨hcred, h⟩ <;> simp only [paginate, h]
        · have hfe : (parseBrandListing ext.select b).filter
              (fun link => !(lookupA ({ st with credits := st.credits + 1 } : St).seen
                link.id).isSome) = [] :=
            hN page hp b hn
          simp only [hfe]
          split
          · exact hone
          · split
            · split
              · exact hone
              · rename_i hc3
                have ihb := ih (page + 1) (acc ++ []) (c + 1)
                  { st with credits := st.credits + 1 } (by omega) hN
                rw [if_pos (by omega)] at ihb
                rw [fetchCount_fetch_mapEvs]
                omega
            · rename_i hne
              exact absurd rfl hne
        · split <;> exact hone
        · split <;> exact hone
        · exact hone
      · rw [if_neg hp]
        have hone : (1 : Nat) ≤ 6 - page := by omega
        rcases fetch_cases cfg ext st (pageUrl slug ty idd page) with
          ⟨b, hn, hb, h⟩ | h | ⟨m, h⟩ | ⟨hcred, h⟩ <;> simp only [paginate, h]
        · split
          · exact hone
          · split
            · split
              · exact hone
              · rename_i hc3
                have ihb := ih (page + 1)
                  (acc ++ List.filter (fun link => !(lookupA st.seen link.id).isSome)
                    (parseBrandListing ext.select b)) (c + 1)
                  { st with credits := st.credits + 1 } (by omega) hN
                rw [fetchCount_fetch_mapEvs]
                by_cases hp1 : 3 ≤ page + 1
                · rw [if_pos hp1] at ihb
                  omega
                · rw [if_neg hp1] at ihb
                  omega
            · have ihb := ih (page + 1)
                (acc ++ List.filter (fun link => !(lookupA st.seen link.id).isSome)
                  (parseBrandListing ext.select b)) 0
                { st with credits := st.credits + 1 } (by omega) hN
              rw [fetchCount_fetch_mapEvs]
              by_cases hp1 : 3 ≤ page + 1
              · rw [if_pos hp1] at ihb
                omega
              · rw [if_neg hp1] at ihb
                omega
        · split <;> exact hone
        · split <;> exact hone
        · exact hone

/-- C7: the paginator keeps a counter of consecutive pages yielding zero
unseen references, stops the category at 3, and resets it on any page with
an unseen reference — hence when no page from page 3 onward yields an unseen
reference (unseen items only on pages 1–2), the category charges at most 5
pagination fetches, i.e. pagination stops no later than page 5. -/
theorem C7_early_stop (cfg : Config) (ext : Extern) (brandUrl : String)
    (st : St) (slug ty idd : String)
    (hm : matchBrandUrl brandUrl = some (slug, ty, idd))
    (h : ∀ n, 3 ≤ n → NoNew ext st.seen slug ty idd n) :
    fetchCount (getBrandProductLinks cfg ext brandUrl st).evs ≤ 5 := by
  simp only [getBrandProductLinks, hm]
  have hb := paginate_nonew_bound cfg ext slug ty idd (cfg.maxCredits + 1)
    1 [] 0 st (by omega) h
  rw [if_neg (by omega)] at hb
  exact hb

/-- C7 witness: at a concrete source every page of which lists only the
already-seen product 9, the apple category charges at most 5 pagination
fetches. -/
theorem C7_early_stop_witness :
    matchBrandUrl catA.url = some ("apple", "phones", "48") ∧
    fetchCount (getBrandProductLinks cfg50 extC7 catA.url
      (⟨0, seen9, seen9, 0, 0, []⟩ : St)).evs ≤ 5 :=
  ⟨by decide,
   C7_early_stop cfg50 extC7 catA.url (⟨0, seen9, seen9, 0, 0, []⟩ : St)
     "apple" "phones" "48" (by decide) (by
       intro n hn b hb
       have hbe : b = "L9" := by injection hb with he; exact he.symm
       subst hbe
       decide)⟩

/-! Claim C6. -/

theorem outcomesOf_append (a b : List Ev) :
    outcomesOf (a ++ b) = outcomesOf a ++ outcomesOf b := by
  simp [outcomesOf, List.filterMap_append]

theorem outcomesOf_mapEvs {α : Type} (pre : List Ev) (o : Out α) :
    outcomesOf (mapEvs pre o).evs = outcomesOf pre ++ outcomesOf o.evs := by
  show outcomesOf (pre ++ o.evs) = _
  exact outcomesOf_append pre o.evs

theorem outcomesOf_sink (pid : Option String) :
    outcomesOf [Ev.sink pid] = [] := rfl

theorem outcomesOf_skip (u : String) :
    outcomesOf [Ev.itemSkip u] = [IOut.skp] := rfl

theorem outcomesOf_skip_abandon (u bn : String) :
    outcomesOf [Ev.itemSkip u, Ev.abandon bn] = [IOut.skp] := rfl

theorem outcomesOf_err (u : String) :
    outcomesOf [Ev.itemErr u] = [IOut.erk] := rfl

theorem scrapeLoop_outcomes (cfg : Config) (ext : Extern) (brand : String) :
    ∀ links c st, c ≤ 2 →
      (scrapeLoop cfg ext brand links c st).res = Res.ok () →
      validFrom c (outcomesOf (scrapeLoop cfg ext brand links c st).evs) = true ∧
      (outcomesOf (scrapeLoop cfg ext brand links c st).evs).length ≤ links.length ∧
      ((outcomesOf (scrapeLoop cfg ext brand links c st).evs).length < links.length →
        ctrFrom c (outcomesOf (scrapeLoop cfg ext brand links c st).evs) = 3) := by
  intro links
  induction links with
  | nil =>
      intro c st hc h
      exact ⟨rfl, Nat.le_refl _, fun hlt => absurd hlt (by simp)⟩
  | cons link rest ih =>
      intro c st hc h
      have hcs := scrapeProduct_cases cfg ext st link.url brand
      rcases hoc : scrapeProduct cfg ext st link.url brand with ⟨r, st1, evs1⟩
      rw [hoc] at hcs
      cases r with
      | ok a =>
          cases a with
          | some product =>
              have hout : outcomesOf evs1 = [IOut.acc] := by
                rcases hcs with ⟨-, -, -, hno, -⟩ | ⟨pid, p, -, -, -, -, -, ho, -⟩
                · exact absurd rfl (hno product)
                · exact ho
              simp only [scrapeLoop, hoc] at h ⊢
              obtain ⟨ihv, ihl, ihs⟩ := ih 0 _ (by omega) h
              rw [outcomesOf_mapEvs, outcomesOf_append, hout, outcomesOf_sink,
                List.append_nil, List.singleton_append]
              refine ⟨?_, ?_, ?_⟩
              · rw [validFrom]
                exact ihv
              · simp only [List.length_cons]
                omega
              · intro hlt
                simp only [List.length_cons] at hlt
                rw [ctrFrom]
                exact ihs (by omega)
          | none =>
              have hout : outcomesOf evs1 = [] := by
                rcases hcs with ⟨-, ho, -, -, -⟩ | ⟨pid, p, -, -, hr, -⟩
                · exact ho
                · simp at hr
              simp only [scrapeLoop, hoc] at h ⊢
              by_cases h3 : c + 1 ≥ 3
              · rw [if_pos h3] at h ⊢
                have hc2 : c = 2 := by omega
                subst hc2
                rw [outcomesOf_append, hout, outcomesOf_skip_abandon,
                  List.nil_append]
                refine ⟨?_, ?_, ?_⟩
                · rw [validFrom]
                  rw [if_pos (by omega)]
                  rfl
                · simp only [List.length_cons, List.length_nil]
                  omega
                · intro hlt
                  rw [ctrFrom, ctrFrom]
              · rw [if_neg h3] at h ⊢
                obtain ⟨ihv, ihl, ihs⟩ := ih (c + 1) _ (by omega) h
                rw [outcomesOf_mapEvs, outcomesOf_append, hout, outcomesOf_skip,
                  List.nil_append, List.singleton_append]
                refine ⟨?_, ?_, ?_⟩
                · rw [validFrom]
                  rw [if_neg h3]
                  exact ihv
                · simp only [List.length_cons]
                  omega
                · intro hlt
                  simp only [List.length_cons] at hlt
                  rw [ctrFrom]
                  exact ihs (by omega)
      | thrown m =>
          simp only [scrapeLoop, hoc] at h ⊢
          by_cases hm2 : containsSub m "BLOCK_DETECTED" = true
          · rw [if_pos hm2] at h
            cases h
          · rw [if_neg hm2] at h ⊢
            have hout : outcomesOf evs1 = [] := by
              rcases hcs with ⟨-, ho, -, -, -⟩ | ⟨pid, p, -, -, hr, -⟩
              · exact ho
              · simp at hr
            obtain ⟨ihv, ihl, ihs⟩ := ih c _ hc h
            rw [outcomesOf_mapEvs, outcomesOf_append, hout, outcomesOf_err,
              List.nil_append, List.singleton_append]
            refine ⟨?_, ?_, ?_⟩
            · rw [validFrom]
              exact ihv
            · simp only [List.length_cons]
              omega
            · intro hlt
              simp only [List.length_cons] at hlt
              rw [ctrFrom]
              exact ihs (by omega)
      | exited cd =>
          simp only [scrapeLoop, hoc] at h
          cases h
      | spun =>
          simp only [scrapeLoop, hoc] at h
          cases h

/-- C6 counterexample: a run in which all three processed items fail
extraction (no out-of-scope skip ever happens) still abandons the fourth
reference of the category — the abandonment counter is incremented by these
nulls, so it does not count only out-of-scope validity skips. -/
theorem C6_counterexample :
    (runIncrementalScraper cfg50 extC6 [catA] []).res = Res.ok () ∧
    (runIncrementalScraper cfg50 extC6 [catA] []).evs =
      [Ev.catStart "apple", Ev.fetch (pApple 1), Ev.fetch (pApple 2),
       Ev.fetch (BASE ++ "/a-1.php"), Ev.itemSkip (BASE ++ "/a-1.php"),
       Ev.fetch (BASE ++ "/a-2.php"), Ev.itemSkip (BASE ++ "/a-2.php"),
       Ev.fetch (BASE ++ "/a-3.php"), Ev.itemSkip (BASE ++ "/a-3.php"),
       Ev.abandon "apple", Ev.flush [] true] ∧
    hasFetchOf (runIncrementalScraper cfg50 extC6 [catA] []).evs
      (BASE ++ "/a-4.php") = false ∧
    hasAccept (runIncrementalScraper cfg50 extC6 [catA] []).evs = false := by
  refine ⟨?_, ?_, ?_, ?_⟩ <;> decide

/-- C6 amended: the per-category abandonment counter counts consecutive
null item results of any kind — out-of-scope validity skips, already-seen
skips, and failures caught inside `scrapeProduct` alike; it resets to zero
on every accepted product, is left untouched by errors caught at the loop
boundary, and when it reaches 3 the remaining references are abandoned: a
normally-returning item loop produces an outcome sequence that never
continues past a third consecutive null, processes at most as many
references as it was given, and stops early exactly with the counter at 3. -/
theorem C6_skip_counter (cfg : Config) (ext : Extern) (brand : String)
    (links : List Ref) (st : St)
    (h : (scrapeLoop cfg ext brand links 0 st).res = Res.ok ()) :
    validFrom 0 (outcomesOf (scrapeLoop cfg ext brand links 0 st).evs) = true ∧
    (outcomesOf (scrapeLoop cfg ext brand links 0 st).evs).length ≤ links.length ∧
    ((outcomesOf (scrapeLoop cfg ext brand links 0 st).evs).length < links.length →
      ctrFrom 0 (outcomesOf (scrapeLoop cfg ext brand links 0 st).evs) = 3) :=
  scrapeLoop_outcomes cfg ext brand links 0 st (by omega) h

/-- C6 witness: on four references whose product pages all fail extraction,
the loop returns normally after three nulls, its outcome sequence is valid
for the counter rule, and the early stop happens exactly at counter 3. -/
theorem C6_skip_counter_witness :
    (scrapeLoop cfg50 extC6 "apple"
      [⟨BASE ++ "/a-1.php", "1"⟩, ⟨BASE ++ "/a-2.php", "2"⟩,
       ⟨BASE ++ "/a-3.php", "3"⟩, ⟨BASE ++ "/a-4.php", "4"⟩] 0
      (⟨2, [], [], 0, 0, []⟩ : St)).res = Res.ok () ∧
    validFrom 0 (outcomesOf (scrapeLoop cfg50 extC6 "apple"
      [⟨BASE ++ "/a-1.php", "1"⟩, ⟨BASE ++ "/a-2.php", "2"⟩,
       ⟨BASE ++ "/a-3.php", "3"⟩, ⟨BASE ++ "/a-4.php", "4"⟩] 0
      (⟨2, [], [], 0, 0, []⟩ : St)).evs) = true ∧
    ctrFrom 0 (outcomesOf (scrapeLoop cfg50 extC6 "apple"
      [⟨BASE ++ "/a-1.php", "1"⟩, ⟨BASE ++ "/a-2.php", "2"⟩,
       ⟨BASE ++ "/a-3.php", "3"⟩, ⟨BASE ++ "/a-4.php", "4"⟩] 0
      (⟨2, [], [], 0, 0, []⟩ : St)).evs) = 3 :=
  ⟨by decide,
   (C6_skip_counter cfg50 extC6 "apple"
     [⟨BASE ++ "/a-1.php", "1"⟩, ⟨BASE ++ "/a-2.php", "2"⟩,
      ⟨BASE ++ "/a-3.php", "3"⟩, ⟨BASE ++ "/a-4.php", "4"⟩]
     (⟨2, [], [], 0, 0, []⟩ : St) (by decide)).1,
   (C6_skip_counter cfg50 extC6 "apple"
     [⟨BASE ++ "/a-1.php", "1"⟩, ⟨BASE ++ "/a-2.php", "2"⟩,
      ⟨BASE ++ "/a-3.php", "3"⟩, ⟨BASE ++ "/a-4.php", "4"⟩]
     (⟨2, [], [], 0, 0, []⟩ : St) (by decide)).2.2 (by decide)⟩

end GSM
